import Mathlib

/-!
Verification development for the linera-skribble drawing relay, archive
publisher and turn-clock reconciler.  The definitions below are a shallow
embedding of the repository's relay server (the WebSocket message handler),
the client canvas coordinate logic, and the two auto-transition timers of
the game client.  Theorems about these definitions settle the spec claims.
-/

namespace Skribble

/-! ### Generic association lists (modelling JS `Map`) -/

def alookup {κ α : Type} [DecidableEq κ] (k : κ) : List (κ × α) → Option α
  | [] => none
  | (k2, v) :: rest => if k2 = k then some v else alookup k rest

def aset {κ α : Type} [DecidableEq κ] (k : κ) (v : α) : List (κ × α) → List (κ × α)
  | [] => [(k, v)]
  | (k2, v2) :: rest => if k2 = k then (k, v) :: rest else (k2, v2) :: aset k v rest

def aremove {κ α : Type} [DecidableEq κ] (k : κ) : List (κ × α) → List (κ × α)
  | [] => []
  | (k2, v2) :: rest => if k2 = k then rest else (k2, v2) :: aremove k rest

/-! ### JS value coercions used by the relay -/

/-- Model of a JSON field that the server passes through JS `Number(...)`:
the field may be absent (`Number(undefined) = NaN`), JSON `null`
(`Number(null) = 0`), a finite number, or some non-numeric value (NaN). -/
inductive JsNum where
  | absent : JsNum
  | nullv : JsNum
  | num : Int → JsNum
  | nonNum : JsNum
  deriving DecidableEq, Repr

/-- `Number.isFinite(Number(v)) ? Number(v) : null` as computed by the relay. -/
def toFiniteNum : JsNum → Option Int
  | .absent => none
  | .nullv => some 0
  | .num n => some n
  | .nonNum => none

/-- JS `a || b` on an optional string (empty string is falsy). -/
def jsOr (a b : Option String) : Option String :=
  match a with
  | some s => if s = "" then b else some s
  | none => b

/-- JS truthiness of an optional string: `none` and `""` are falsy. -/
def strFalsy : Option String → Bool
  | none => true
  | some s => s == ""

/-- JS `String.prototype.trim`: strip leading and trailing whitespace. -/
def jsTrim (s : String) : String :=
  String.mk (((s.toList.dropWhile Char.isWhitespace).reverse.dropWhile
    Char.isWhitespace).reverse)

/-! ### Relay data model (server.js, src/unnamed/part_006) -/

/-- `roomCanvasState` entry value: `{kind: 'blank'} | {kind: 'image', image}`. -/
inductive CanvasVal where
  | blank : CanvasVal
  | snapshot : String → CanvasVal
  deriving DecidableEq, Repr

structure RoomCanvas where
  val : CanvasVal
  updatedAt : Nat
  drawerId : Option String
  deriving DecidableEq, Repr

/-- `roomWordCache` entry: the Pending Word Assertion of a room. -/
structure CachedWord where
  word : String
  round : Option Int
  drawerId : Option String
  turnId : Option String
  receivedAt : Nat
  deriving DecidableEq, Repr

/-- Per-connection info stored in a room member map. -/
structure ConnInfo where
  clientId : Option String
  userId : Option Nat
  deriving DecidableEq, Repr

/-- One row of the `history` table. -/
structure HistRecord where
  userId : Nat
  roomId : String
  blobHash : String
  timestamp : Nat
  deriving DecidableEq, Repr

/-- Projection returned by `get_history` (blob_hash, timestamp, room_id). -/
structure HistOut where
  blobHash : String
  timestamp : Nat
  roomId : String
  deriving DecidableEq, Repr

/-- The whole mutable state of the relay process: the three per-room maps
plus the persistent sqlite tables. -/
structure RelayState where
  rooms : List (String × List (Nat × ConnInfo))
  roomWordCache : List (String × CachedWord)
  roomCanvasState : List (String × RoomCanvas)
  users : List (Nat × String)
  history : List HistRecord
  deriving DecidableEq, Repr

/-- Per-connection closure variables of the message handler. -/
structure ConnState where
  currentRoom : Option String
  clientId : Option String
  userId : Option Nat
  deriving DecidableEq, Repr

/-- Metadata object carried inside `payload.meta` of a `publish_blob`.
`word`, `drawerId`, `turnId` are `none` when absent, null or not a string
(the code collapses those through `typeof v === 'string'` checks);
`round` keeps the full JS `Number(...)` behaviour, which distinguishes
JSON null (coerced to 0) from an absent field (NaN). -/
structure Meta where
  word : Option String
  round : JsNum
  drawerId : Option String
  turnId : Option String
  deriving DecidableEq, Repr

/-- The enriched `payload` of a `publish_blob` message (only `meta` matters
to the relay; the rest is serialized verbatim). -/
structure Payload where
  meta : Option Meta
  deriving DecidableEq, Repr

/-- A temporary artifact written to disk before invoking the publish command. -/
inductive TempContent where
  | json : Payload → TempContent
  | img : String → TempContent
  deriving DecidableEq, Repr

/-- Server-to-client messages. -/
inductive ServerMsg where
  | joined : String → ServerMsg
  | sync : String → Nat → Option String → ServerMsg
  | syncClear : Nat → Option String → ServerMsg
  | draw : ServerMsg
  | clearMsg : Option String → ServerMsg
  | blobPublished : String → ServerMsg
  | blobError : String → ServerMsg
  | historyResult : String → List HistOut → ServerMsg
  | historyError : String → ServerMsg
  deriving DecidableEq, Repr

/-! ### Relay helpers (setRoomBlank / setRoomImage / sendRoomSync) -/

/-- `setRoomBlank(roomId, drawerId)`: no-op on a falsy room id, otherwise
stores `{kind:'blank', updatedAt: Date.now(), drawerId: drawerId || null}`. -/
def setRoomBlank (st : RelayState) (roomId : String) (drawerId : Option String)
    (now : Nat) : RelayState :=
  if roomId = "" then st
  else
    { st with
      roomCanvasState :=
        aset roomId ⟨CanvasVal.blank, now, drawerId⟩ st.roomCanvasState }

/-- `setRoomImage(roomId, image, drawerId)`: no-op on a falsy room id or a
non-string / empty image. -/
def setRoomImage (st : RelayState) (roomId : String) (image : String)
    (drawerId : Option String) (now : Nat) : RelayState :=
  if roomId = "" then st
  else if image = "" then st
  else
    { st with
      roomCanvasState :=
        aset roomId ⟨CanvasVal.snapshot image, now, drawerId⟩ st.roomCanvasState }

/-- `sendRoomSync(ws, roomId)` as the list of messages sent to `ws`. -/
def syncMsgs (st : RelayState) (roomId : String) : List ServerMsg :=
  if roomId = "" then []
  else
    match alookup roomId st.roomCanvasState with
    | none => []
    | some c =>
      match c.val with
      | CanvasVal.blank => [ServerMsg.syncClear c.updatedAt c.drawerId]
      | CanvasVal.snapshot i => [ServerMsg.sync i c.updatedAt c.drawerId]

/-! ### join / request_sync / snapshot / clear handlers -/

/-- Result of handling one message on one connection: the new relay state,
the new per-connection state, the replies sent to the sender, and the
broadcasts sent to other members (receiver ws id paired with the message). -/
structure HandleResult where
  state : RelayState
  conn : ConnState
  replies : List ServerMsg
  broadcasts : List (Nat × ServerMsg)
  deriving DecidableEq, Repr

/-- The `join` case of the message handler. -/
def handleJoin (st : RelayState) (wsId : Nat) (roomId : String)
    (clientId : Option String) (userId : Option Nat) (now : Nat) : HandleResult :=
  let conn : ConnState :=
    { currentRoom := some roomId, clientId := clientId,
      userId := match userId with
                | some 0 => none
                | some u => some u
                | none => none }
  let st1 :=
    if (alookup roomId st.rooms).isNone then
      { st with rooms := aset roomId [] st.rooms }
    else st
  let st2 :=
    if (alookup roomId st1.roomCanvasState).isNone then
      setRoomBlank st1 roomId none now
    else st1
  let members := (alookup roomId st2.rooms).getD []
  let st3 :=
    { st2 with
      rooms := aset roomId (aset wsId ⟨conn.clientId, conn.userId⟩ members) st2.rooms }
  { state := st3, conn := conn,
    replies := ServerMsg.joined roomId :: syncMsgs st3 roomId,
    broadcasts := [] }

/-- The `request_sync` case: `data.roomId || currentRoom`, then sendRoomSync. -/
def handleRequestSync (st : RelayState) (conn : ConnState)
    (dataRoomId : Option String) : List ServerMsg :=
  match jsOr dataRoomId conn.currentRoom with
  | some roomId => syncMsgs st roomId
  | none => []

/-- The `snapshot` case: stores the image as the room canvas state without
broadcasting or replying. -/
def handleSnapshot (st : RelayState) (conn : ConnState)
    (dataRoomId : Option String) (dataDrawerId : Option String)
    (image : Option String) (now : Nat) : HandleResult :=
  let roomId := jsOr dataRoomId conn.currentRoom
  let drawerId := jsOr dataDrawerId conn.clientId
  let st2 :=
    match roomId, image with
    | some r, some i => if i.length > 0 then setRoomImage st r i drawerId now else st
    | _, _ => st
  { state := st2, conn := conn, replies := [], broadcasts := [] }

/-- Members of a room other than the sender, in registration order. -/
def otherMembers (st : RelayState) (roomId : String) (wsId : Nat) :
    List (Nat × ConnInfo) :=
  ((alookup roomId st.rooms).getD []).filter (fun m => !(m.1 == wsId))

/-- The `clear` case: sets the room canvas state to blank (tagged with the
sender) and broadcasts `clear` to every other member. -/
def handleClear (st : RelayState) (wsId : Nat) (conn : ConnState)
    (dataDrawerId : Option String) (now : Nat) : HandleResult :=
  match conn.currentRoom with
  | none => { state := st, conn := conn, replies := [], broadcasts := [] }
  | some room =>
    let st2 := setRoomBlank st room (jsOr dataDrawerId conn.clientId) now
    let bcast :=
      if (alookup room st2.rooms).isSome then
        (otherMembers st2 room wsId).map
          (fun m => (m.1, ServerMsg.clearMsg dataDrawerId))
      else []
    { state := st2, conn := conn, replies := [], broadcasts := bcast }

/-! ### set_word handler (Pending Word Assertion) -/

/-- The `set_word` case: trims the word, coerces round through `Number`,
and stores a last-write-wins Pending Word Assertion for the room when the
room id and the trimmed word are truthy. -/
def handleSetWord (st : RelayState) (conn : ConnState)
    (dataRoomId : Option String) (dataWord : Option String) (dataRound : JsNum)
    (dataDrawerId : Option String) (dataTurnId : Option String) (now : Nat) :
    RelayState :=
  let roomId := jsOr dataRoomId conn.currentRoom
  let word := jsTrim (dataWord.getD "")
  let round := toFiniteNum dataRound
  let drawerId := jsOr dataDrawerId conn.clientId
  let turnId := jsTrim (dataTurnId.getD "")
  match roomId with
  | some r =>
    if word = "" then st
    else
      { st with
        roomWordCache :=
          aset r ⟨word, round, drawerId, if turnId = "" then none else some turnId, now⟩
            st.roomWordCache }
  | none => st

/-! ### publish_blob handler (Archive Publisher) -/

/-- Lowercase hex digit as matched by the `[a-f0-9]` character class. -/
def isHexDigit (c : Char) : Bool :=
  c.isDigit || ('a' ≤ c && c ≤ 'f')

/-- Length of the maximal prefix of hex digits. -/
def hexRun : List Char → Nat
  | [] => 0
  | c :: rest => if isHexDigit c then hexRun rest + 1 else 0

/-- Leftmost run of at least 64 hex digits, truncated to 64 characters:
the capture of the regular expression matching 64 chars of a-f0-9 used on
the publish command's standard output. -/
def findHash : List Char → Option (List Char)
  | [] => none
  | c :: rest =>
    if 64 ≤ hexRun (c :: rest) then some ((c :: rest).take 64)
    else findHash rest

def parseHash (s : String) : Option String :=
  (findHash s.toList).map (fun l => String.mk l)

/-- The word-backfill step of `publish_blob`: when the room has a cached
Pending Word Assertion and the payload carries a meta object, fill an empty
`meta.word` from the assertion if round, drawerId and turnId all match. -/
def backfillMeta (cached : Option CachedWord) (meta : Option Meta) : Option Meta :=
  match cached, meta with
  | some c, some m =>
    let metaWord := jsTrim (m.word.getD "")
    let metaRound := toFiniteNum m.round
    let roundMatches := c.round.isNone || metaRound.isNone || (c.round == metaRound)
    let metaDrawerId := jsTrim (m.drawerId.getD "")
    let drawerMatches :=
      strFalsy c.drawerId || (metaDrawerId == "") || (c.drawerId == some metaDrawerId)
    let metaTurnId := jsTrim (m.turnId.getD "")
    let turnMatches :=
      strFalsy c.turnId || (metaTurnId == "") || (c.turnId == some metaTurnId)
    let allMatch := drawerMatches && roundMatches && turnMatches
    if (metaWord == "") && allMatch then some { m with word := some c.word }
    else some m
  | _, m => m

/-- The combined match condition of the backfill, as a boolean on the
cached assertion and the meta object. -/
def metaMatches (c : CachedWord) (m : Meta) : Bool :=
  (strFalsy c.drawerId || (jsTrim (m.drawerId.getD "") == "")
      || (c.drawerId == some (jsTrim (m.drawerId.getD ""))))
    && (c.round.isNone || (toFiniteNum m.round).isNone || (c.round == toFiniteNum m.round))
    && (strFalsy c.turnId || (jsTrim (m.turnId.getD "") == "")
      || (c.turnId == some (jsTrim (m.turnId.getD ""))))

/-- Result of a `publish_blob` request once the external command callbacks
have run: new relay state, replies to the requester, the temporary
artifacts written to disk, and the number of external command invocations. -/
structure PublishResult where
  state : RelayState
  replies : List ServerMsg
  written : List TempContent
  invocations : Nat
  deriving DecidableEq, Repr

/-- JS truthiness of the optional `data.image` string. -/
def imageTruthy : Option String → Bool
  | none => false
  | some s => !(s == "")

/-- Success continuation of `tryPublish`: reply `blob_published`, consume a
matching Pending Word Assertion, and insert one history row per connected
identity of the sender's current room. -/
def publishSuccess (st : RelayState) (conn : ConnState) (payload : Option Payload)
    (hash : String) (ts : Nat) : RelayState × List ServerMsg :=
  let st1 :=
    match conn.currentRoom with
    | some room =>
      if room = "" then st
      else
        match payload with
        | some p =>
          match p.meta with
          | some m =>
            let metaWord := jsTrim (m.word.getD "")
            if metaWord = "" then st
            else
              match alookup room st.roomWordCache with
              | some c =>
                if c.word = metaWord then
                  { st with roomWordCache := aremove room st.roomWordCache }
                else st
              | none => st
          | none => st
        | none => st
    | none => st
  let st2 :=
    match conn.currentRoom with
    | some room =>
      if room = "" then st1
      else
        match alookup room st1.rooms with
        | some members =>
          { st1 with
            history :=
              st1.history ++
                (members.filterMap (fun mem =>
                  match mem.2.userId with
                  | some u => if u = 0 then none else some ⟨u, room, hash, ts⟩
                  | none => none)) }
        | none => st1
    | none => st1
  (st2, [ServerMsg.blobPublished hash])

/-- The `tryPublish` call chain: a first direct invocation, and on command
failure a single WSL fallback that is attempted only when the process
platform is win32 (on other platforms the error continuation does
nothing).  `r1`/`r2` are the outcomes of the two possible invocations:
`none` for a non-zero exit, `some out` for success with standard output
`out`. -/
def tryPublishChain (st : RelayState) (conn : ConnState) (payload : Option Payload)
    (firstWrite : TempContent) (isWindows : Bool) (r1 r2 : Option String)
    (ts : Nat) : PublishResult :=
  match r1 with
  | some out =>
    match parseHash out with
    | some h =>
      let (st2, rs) := publishSuccess st conn payload h ts
      ⟨st2, rs, [firstWrite], 1⟩
    | none => ⟨st, [ServerMsg.blobError "Could not parse blob hash"], [firstWrite], 1⟩
  | none =>
    if isWindows then
      match r2 with
      | some out =>
        match parseHash out with
        | some h =>
          let (st2, rs) := publishSuccess st conn payload h ts
          ⟨st2, rs, [firstWrite, firstWrite], 2⟩
        | none =>
          ⟨st, [ServerMsg.blobError "Could not parse blob hash"],
            [firstWrite, firstWrite], 2⟩
      | none =>
        ⟨st, [ServerMsg.blobError "Failed to publish blob"],
          [firstWrite, firstWrite], 2⟩
    else ⟨st, [], [firstWrite], 1⟩

/-- The `publish_blob` case of the message handler. -/
def handlePublishBlob (st : RelayState) (conn : ConnState)
    (payload : Option Payload) (image : Option String)
    (isWindows : Bool) (r1 r2 : Option String) (ts : Nat) : PublishResult :=
  match payload with
  | some p0 =>
    let cached :=
      match conn.currentRoom with
      | some room => if room = "" then none else alookup room st.roomWordCache
      | none => none
    let p :=
      match conn.currentRoom with
      | some room =>
        if room = "" then p0 else { p0 with meta := backfillMeta cached p0.meta }
      | none => p0
    tryPublishChain st conn (some p) (TempContent.json p) isWindows r1 r2 ts
  | none =>
    if imageTruthy image then
      tryPublishChain st conn none (TempContent.img (image.getD "")) isWindows r1 r2 ts
    else
      ⟨st, [ServerMsg.blobError "No image or payload provided"], [], 0⟩

/-! ### save_history / get_history (History Store) -/

/-- The `save_history` case: inserts one history row per hash; the database
assigns each row its `CURRENT_TIMESTAMP`, modelled by the clock function on
the insertion index. -/
def saveHistory (st : RelayState) (userId : Nat) (roomId : String)
    (hashes : List String) (clock : Nat → Nat) : RelayState :=
  if userId = 0 then st
  else if roomId = "" then st
  else
    { st with
      history :=
        st.history ++
          (List.range hashes.length).map
            (fun i => ⟨userId, roomId, hashes.getD i "", clock i⟩) }

/-- Insertion into a list kept in descending timestamp order. -/
def insertDesc (r : HistOut) : List HistOut → List HistOut
  | [] => [r]
  | x :: xs => if x.timestamp ≤ r.timestamp then r :: x :: xs else x :: insertDesc r xs

/-- Sort by timestamp descending: the `ORDER BY h.timestamp DESC` of
`get_history`. -/
def sortDesc : List HistOut → List HistOut
  | [] => []
  | x :: xs => insertDesc x (sortDesc xs)

/-- Rows of the join of `history` with `users` restricted to a nickname. -/
def historyRowsFor (st : RelayState) (nickname : String) : List HistOut :=
  (st.history.filter
      (fun r => st.users.any (fun u => u.1 == r.userId && u.2 == nickname))).map
    (fun r => ⟨r.blobHash, r.timestamp, r.roomId⟩)

/-- The `get_history` case: all records whose owning identity has the given
nickname, ordered by timestamp descending. -/
def getHistory (st : RelayState) (nickname : String) : List HistOut :=
  sortDesc (historyRowsFor st nickname)

def handleGetHistory (st : RelayState) (nickname : String) : List ServerMsg :=
  [ServerMsg.historyResult nickname (getHistory st nickname)]

/-! ### Turn Clock Reconciler (Game.tsx)

The two auto-transition effects are modelled as small state machines driven
by a trace of events: `observe` events are runs of the React effect body
(the previous run's cleanup, when the effect has one, runs first), and
`fire` events are expirations of a scheduled timeout.  Times are in
milliseconds. -/

inductive GamePhase where
  | waitingForWord : GamePhase
  | drawing : GamePhase
  | other : GamePhase
  deriving DecidableEq, Repr

/-- The authoritative room fields the two effects read. -/
structure RoomObs where
  phase : GamePhase
  drawerChosenAt : Option Nat
  wordChosenAt : Option Nat
  drawerIndex : Nat
  secondsPerRound : Nat
  deriving DecidableEq, Repr

/-- `FIXED_WORD_OPTIONS` of Game.tsx. -/
def FIXED_WORD_OPTIONS : List String := ["cat", "house", "tree"]

/-- `(wordOptions.length ? wordOptions : FIXED_WORD_OPTIONS)[0]`. -/
def firstWordChoice (opts : List String) : String :=
  (if opts.isEmpty then FIXED_WORD_OPTIONS else opts).headD ""

/-- A scheduled auto-word timeout.  `dcAt` and `opts` record the
`drawerChosenAt` value and the word options captured by the closure. -/
structure WTimer where
  tid : Nat
  fireAt : Nat
  dcAt : Nat
  opts : List String
  deriving DecidableEq, Repr

/-- State of the auto-word effect: the id counter of the timer runtime, the
set of outstanding timeouts, and `autoWordTimeoutRef`. -/
structure WordClock where
  nextId : Nat
  pending : List WTimer
  timeoutRef : Option Nat
  deriving DecidableEq, Repr

def WordClock.init : WordClock := ⟨0, [], none⟩

/-- `clearTimeout(autoWordTimeoutRef.current); autoWordTimeoutRef.current = null`. -/
def cancelWordTimeout (s : WordClock) : WordClock :=
  { s with
    pending := s.pending.filter (fun t => !(s.timeoutRef == some t.tid)),
    timeoutRef := none }

/-- The guard of the auto-word effect:
`gameState WaitingForWord && drawerChosenAt && !wordChosenAt`. -/
def awaitingWord (obs : RoomObs) : Bool :=
  obs.phase == GamePhase.waitingForWord
    && obs.drawerChosenAt.isSome && obs.wordChosenAt.isNone

inductive WordEvent where
  | observe : Nat → Bool → RoomObs → List String → WordEvent
  | fire : Nat → RoomObs → WordEvent
  deriving DecidableEq, Repr

/-- An auto-word-submit firing, with the `drawerChosenAt` it was scheduled
for, the options it saw, the time it ran and the word it submitted. -/
structure WordAction where
  dcAt : Nat
  firedAt : Nat
  opts : List String
  word : String
  deriving DecidableEq, Repr

/-- One step of the auto-word effect.  On `observe now amIDrawer obs opts`
the cleanup of the previous run cancels any outstanding timeout, then the
body schedules a fresh one when the sender is the drawer and the room is
awaiting a word, firing after `max(0, 15s - max(0, now - drawerChosenAt))`.
On `fire tid obs` the timeout runs: it submits the first word option
unless `wordChosenAt` has been set in the meantime. -/
def wordStep (s : WordClock) : WordEvent → WordClock × Option WordAction
  | .observe now amIDrawer obs opts =>
    let s1 := cancelWordTimeout s
    if amIDrawer && awaitingWord obs then
      match obs.drawerChosenAt with
      | some dc =>
        let fireAt := now + (15000 - (now - dc))
        (⟨s1.nextId + 1, s1.pending ++ [⟨s1.nextId, fireAt, dc, opts⟩],
          some s1.nextId⟩, none)
      | none => (s1, none)
    else (s1, none)
  | .fire tid obs =>
    match s.pending.find? (fun t => t.tid == tid) with
    | none => (s, none)
    | some t =>
      ({ s with pending := s.pending.filter (fun u => !(u.tid == tid)) },
        if obs.wordChosenAt.isNone then
          some ⟨t.dcAt, t.fireAt, t.opts, firstWordChoice t.opts⟩
        else none)

def wordRun (s : WordClock) : List WordEvent → WordClock
  | [] => s
  | e :: es => wordRun (wordStep s e).1 es

def wordActions (s : WordClock) : List WordEvent → List WordAction
  | [] => []
  | e :: es => (wordStep s e).2.toList ++ wordActions (wordStep s e).1 es

/-- An observation whose local clock is not behind the authoritative
`drawerChosenAt` timestamp it carries. -/
def wordObsClockOK : WordEvent → Bool
  | .observe now _ obs _ =>
    match obs.drawerChosenAt with
    | some dc => decide (dc ≤ now)
    | none => true
  | .fire _ _ => true

/-- An observation that would let the effect schedule for `drawerChosenAt
= d` again: the room still reports `d` with no word chosen. -/
def wordObsBad (d : Nat) : WordEvent → Bool
  | .observe _ _ obs _ => obs.drawerChosenAt == some d && obs.wordChosenAt.isNone
  | .fire _ _ => false

def defaultWordEvent : WordEvent := WordEvent.fire 0 ⟨GamePhase.other, none, none, 0, 0⟩

/-- Environment assumption for the once-per-`drawerChosenAt` property: once
an auto-word action has fired for `drawerChosenAt = d`, the ledger reports
`wordChosenAt` as set on every later observation still carrying `d` (the
fired action submits the word, and a turn never reuses a `drawerChosenAt`
timestamp with the word cleared again). -/
def WordEnvOK (s : WordClock) (tr : List WordEvent) (d : Nat) : Prop :=
  ∀ n, n < tr.length →
    (wordActions s (tr.take n)).any (fun a => a.dcAt == d) = true →
    wordObsBad d (tr.getD n defaultWordEvent) = false

/-! #### Auto drawer advance (host only) -/

/-- A scheduled auto-advance timeout, keyed by `(drawerIndex, wordChosenAt)`;
`sprMs` records the round duration (ms) used to schedule it. -/
structure DTimer where
  tid : Nat
  fireAt : Nat
  keyIdx : Nat
  keyWc : Nat
  sprMs : Nat
  deriving DecidableEq, Repr

/-- State of the auto-drawer-advance effect: timer runtime, outstanding
timeouts, `autoDrawerTimeoutRef` and `autoDrawerScheduleKeyRef`. -/
structure DrawerClock where
  nextId : Nat
  pending : List DTimer
  timeoutRef : Option Nat
  scheduleKey : Option (Nat × Nat)
  deriving DecidableEq, Repr

def DrawerClock.init : DrawerClock := ⟨0, [], none, none⟩

def cancelDrawerTimeout (s : DrawerClock) : DrawerClock :=
  { s with
    pending := s.pending.filter (fun t => !(s.timeoutRef == some t.tid)),
    timeoutRef := none }

inductive DrawerEvent where
  | observe : Nat → Bool → RoomObs → DrawerEvent
  | fire : Nat → RoomObs → DrawerEvent
  deriving DecidableEq, Repr

/-- An auto-advance-drawer firing, with its schedule key, round duration
and run time. -/
structure DrawerAction where
  keyIdx : Nat
  keyWc : Nat
  sprMs : Nat
  firedAt : Nat
  deriving DecidableEq, Repr

/-- One step of the auto-drawer effect.  A non-host observation returns
early without touching the timer.  A host observation in Drawing phase with
`wordChosenAt` set schedules a timeout keyed by
`(currentDrawerIndex, wordChosenAt)`, but only when the key differs from
the one already recorded; any other host observation clears the timeout and
both key refs.  A firing runs the scheduled callback, which re-reads the
room and returns without acting when the phase, the drawer index or the
word timestamp has changed. -/
def drawerStep (s : DrawerClock) : DrawerEvent → DrawerClock × Option DrawerAction
  | .observe now isHost obs =>
    if !isHost then (s, none)
    else
      match obs.wordChosenAt with
      | some wc =>
        if obs.phase == GamePhase.drawing then
          let key := (obs.drawerIndex, wc)
          if s.scheduleKey == some key then (s, none)
          else
            let s1 := cancelDrawerTimeout s
            let sprMs := obs.secondsPerRound * 1000
            let fireAt := now + (sprMs - (now - wc))
            (⟨s1.nextId + 1,
              s1.pending ++ [⟨s1.nextId, fireAt, obs.drawerIndex, wc, sprMs⟩],
              some s1.nextId, some key⟩, none)
        else ({ cancelDrawerTimeout s with scheduleKey := none }, none)
      | none => ({ cancelDrawerTimeout s with scheduleKey := none }, none)
  | .fire tid obs =>
    match s.pending.find? (fun t => t.tid == tid) with
    | none => (s, none)
    | some t =>
      ({ s with pending := s.pending.filter (fun u => !(u.tid == tid)) },
        if (obs.phase == GamePhase.drawing) && (obs.drawerIndex == t.keyIdx)
            && (obs.wordChosenAt == some t.keyWc) then
          some ⟨t.keyIdx, t.keyWc, t.sprMs, t.fireAt⟩
        else none)

def drawerRun (s : DrawerClock) : List DrawerEvent → DrawerClock
  | [] => s
  | e :: es => drawerRun (drawerStep s e).1 es

def drawerActions (s : DrawerClock) : List DrawerEvent → List DrawerAction
  | [] => []
  | e :: es => (drawerStep s e).2.toList ++ drawerActions (drawerStep s e).1 es

def drawerObsClockOK : DrawerEvent → Bool
  | .observe now _ obs =>
    match obs.wordChosenAt with
    | some wc => decide (wc ≤ now)
    | none => true
  | .fire _ _ => true

/-- An observation that could schedule for key `k` again: a host
observation in Drawing phase with the same drawer index and word time. -/
def drawerObsBad (k : Nat × Nat) : DrawerEvent → Bool
  | .observe _ isHost obs =>
    isHost && (obs.phase == GamePhase.drawing)
      && (obs.drawerIndex == k.1) && (obs.wordChosenAt == some k.2)
  | .fire _ _ => false

def defaultDrawerEvent : DrawerEvent :=
  DrawerEvent.fire 0 ⟨GamePhase.other, none, none, 0, 0⟩

/-- Environment assumption for the once-per-key property: after an
auto-advance has fired for `(drawerIndex, wordChosenAt) = k`, the ledger
never again reports Drawing phase with exactly that drawer index and word
timestamp (the fired action advances the turn, and `wordChosenAt` values
are not reused). -/
def DrawerEnvOK (s : DrawerClock) (tr : List DrawerEvent) (k : Nat × Nat) : Prop :=
  ∀ n, n < tr.length →
    (drawerActions s (tr.take n)).any
        (fun a => (a.keyIdx == k.1) && (a.keyWc == k.2)) = true →
    drawerObsBad k (tr.getD n defaultDrawerEvent) = false

/-! ### Drawing Surface Controller coordinates (Canvas.tsx) -/

/-- `clamp01` of the receive path: `Math.max(0, Math.min(1, Number(v) || 0))`. -/
def clamp01 (v : ℚ) : ℚ := max 0 (min 1 v)

/-- Sender-side normalization (`broadcastSegment` / `broadcastFill`):
`nx = w ? to.x / w : 0`. -/
def normCoord (p w : ℚ) : ℚ := if w = 0 then 0 else p / w

/-- A wire draw event: legacy absolute pixel coordinates plus optional
normalized coordinates. -/
structure DrawWire where
  x : ℚ
  y : ℚ
  prevX : ℚ
  prevY : ℚ
  nx : Option ℚ
  ny : Option ℚ
  nprevX : Option ℚ
  nprevY : Option ℚ
  deriving DecidableEq, Repr

/-- Receiver-side resolution of the x coordinate against the local buffer
width: `nx !== undefined ? clamp01(nx) * w : Number(x) || 0`. -/
def applyX (m : DrawWire) (w : ℚ) : ℚ :=
  match m.nx with
  | some n => clamp01 n * w
  | none => m.x

/-- Receiver-side resolution of the y coordinate against the local buffer
height. -/
def applyY (m : DrawWire) (h : ℚ) : ℚ :=
  match m.ny with
  | some n => clamp01 n * h
  | none => m.y

/-! ### Helper definitions for statements and concrete scenarios -/

/-- The message `sendRoomSync` emits for a recorded canvas state. -/
def stateMsgOf (c : RoomCanvas) : ServerMsg :=
  match c.val with
  | CanvasVal.blank => ServerMsg.syncClear c.updatedAt c.drawerId
  | CanvasVal.snapshot i => ServerMsg.sync i c.updatedAt c.drawerId

/-- Iterated `clear` handling (state component only). -/
def clearIter (wsId : Nat) (conn : ConnState) (dId : Option String) (now : Nat) :
    Nat → RelayState → RelayState
  | 0, st => st
  | n + 1, st => clearIter wsId conn dId now n (handleClear st wsId conn dId now).state

/-- The empty relay state (server start-up). -/
def st0 : RelayState := ⟨[], [], [], [], []⟩

/-- A connection that joined room R as client D with identity 7. -/
def conn1 : ConnState := ⟨some "R", some "D", some 7⟩

/-- Room state after the drawer declared the word "cat" for round 2,
drawer D, turn T via `set_word`. -/
def stC2 : RelayState :=
  handleSetWord st0 conn1 (some "R") (some "cat") (JsNum.num 2) (some "D") (some "T") 100

/-- A publish metadata object with an empty word, a JSON-null round, and
drawer/turn ids matching the assertion of `stC2`. -/
def metaC2 : Meta := ⟨some "", JsNum.nullv, some "D", some "T"⟩

def payloadC2 : Payload := ⟨some metaC2⟩

/-- Invariant of the auto-word timer state: `autoWordTimeoutRef` tracks
every outstanding timeout, and at most one is outstanding. -/
def wordInv (s : WordClock) : Prop :=
  s.pending.length ≤ 1 ∧ ∀ t ∈ s.pending, s.timeoutRef = some t.tid

/-- Every outstanding auto-word timeout is scheduled at least 15s after
the `drawerChosenAt` it was computed from. -/
def wordTimerOK (s : WordClock) : Prop :=
  ∀ t ∈ s.pending, t.dcAt + 15000 ≤ t.fireAt

/-- Invariant of the auto-drawer timer state. -/
def drawerInv (s : DrawerClock) : Prop :=
  s.pending.length ≤ 1 ∧ ∀ t ∈ s.pending, s.timeoutRef = some t.tid

/-- Every outstanding auto-drawer timeout is scheduled at least the round
duration after the `wordChosenAt` it was computed from. -/
def drawerTimerOK (s : DrawerClock) : Prop :=
  ∀ t ∈ s.pending, t.keyWc + t.sprMs ≤ t.fireAt

/-- Concrete auto-word trace: one scheduling observation and the firing of
the scheduled timeout. -/
def wordTr : List WordEvent :=
  [WordEvent.observe 20000 true ⟨GamePhase.waitingForWord, some 1000, none, 0, 60⟩ ["apple"],
   WordEvent.fire 0 ⟨GamePhase.waitingForWord, some 1000, none, 0, 60⟩]

/-- Concrete auto-drawer trace: one scheduling observation and the firing
of the scheduled timeout. -/
def drawerTr : List DrawerEvent :=
  [DrawerEvent.observe 30000 true ⟨GamePhase.drawing, some 1000, some 2000, 1, 60⟩,
   DrawerEvent.fire 0 ⟨GamePhase.drawing, some 1000, some 2000, 1, 60⟩]

/-! ## Theorems -/

/-! ### Association list lemmas -/

theorem alookup_aset_self {κ α : Type} [DecidableEq κ] (k : κ) (v : α)
    (l : List (κ × α)) : alookup k (aset k v l) = some v := by
  induction l with
  | nil => simp [aset, alookup]
  | cons hd tl ih =>
    obtain ⟨k2, v2⟩ := hd
    by_cases h : k2 = k
    · simp [aset, alookup, h]
    · simp [aset, alookup, h, ih]

theorem alookup_aset_ne {κ α : Type} [DecidableEq κ] (k k2 : κ) (v : α)
    (l : List (κ × α)) (hne : k ≠ k2) :
    alookup k2 (aset k v l) = alookup k2 l := by
  induction l with
  | nil => simp [aset, alookup, hne]
  | cons hd tl ih =>
    obtain ⟨k3, v3⟩ := hd
    by_cases h : k3 = k
    · simp [aset, alookup, h, hne]
    · simp [aset, alookup, h, ih]

/-! ### Claim C10: publish_blob with neither image nor payload -/

/-- Claim C10: a `publish_blob` carrying neither an image nor a payload is
answered with exactly one `blob_error` reply reading
"No image or payload provided"; no temporary file is written, no external
command is invoked, and the relay state (Session Registry, Canvas State
Store, Pending Word Cache, History Store) is unchanged. -/
theorem publish_blob_missing_input (st : RelayState) (conn : ConnState)
    (isWindows : Bool) (r1 r2 : Option String) (ts : Nat) :
    handlePublishBlob st conn none none isWindows r1 r2 ts =
      ⟨st, [ServerMsg.blobError "No image or payload provided"], [], 0⟩ := rfl

/-! ### Claim C7: clear always yields Blank and is idempotent -/

theorem handleClear_blank (st : RelayState) (wsId : Nat) (conn : ConnState)
    (dId : Option String) (now : Nat) (room : String)
    (hroom : conn.currentRoom = some room) (hne : room ≠ "") :
    (alookup room (handleClear st wsId conn dId now).state.roomCanvasState).map
        RoomCanvas.val = some CanvasVal.blank := by
  simp only [handleClear, hroom, setRoomBlank, hne, if_neg]
  simp [alookup_aset_self]

theorem clearIter_blank (wsId : Nat) (conn : ConnState) (dId : Option String)
    (now : Nat) (room : String) (hroom : conn.currentRoom = some room)
    (hne : room ≠ "") (n : Nat) (st : RelayState) :
    (alookup room (clearIter wsId conn dId now (n + 1) st).roomCanvasState).map
        RoomCanvas.val = some CanvasVal.blank := by
  induction n generalizing st with
  | zero =>
    simpa [clearIter] using handleClear_blank st wsId conn dId now room hroom hne
  | succ n ih =>
    simpa [clearIter] using ih (handleClear st wsId conn dId now).state

/-- Claim C7: handling `clear` sets the room's canvas state to the Blank
variant tagged with the sender, whatever the prior state; repeating it any
positive number of times leaves the state variant Blank, the same variant a
single `clear` produces. -/
theorem clear_blank_idempotent (st : RelayState) (wsId : Nat) (conn : ConnState)
    (dId : Option String) (now : Nat) (room : String)
    (hroom : conn.currentRoom = some room) (hne : room ≠ "") :
    (alookup room (handleClear st wsId conn dId now).state.roomCanvasState =
        some ⟨CanvasVal.blank, now, jsOr dId conn.clientId⟩)
    ∧ (∀ n : Nat,
        (alookup room (clearIter wsId conn dId now (n + 1) st).roomCanvasState).map
            RoomCanvas.val = some CanvasVal.blank)
    ∧ (∀ n : Nat,
        (alookup room (clearIter wsId conn dId now (n + 1) st).roomCanvasState).map
            RoomCanvas.val =
          (alookup room (handleClear st wsId conn dId now).state.roomCanvasState).map
            RoomCanvas.val) := by
  refine ⟨?_, ?_, ?_⟩
  · simp only [handleClear, hroom, setRoomBlank, hne, if_neg]
    simp [alookup_aset_self]
  · intro n
    exact clearIter_blank wsId conn dId now room hroom hne n st
  · intro n
    rw [clearIter_blank wsId conn dId now room hroom hne n st,
      handleClear_blank st wsId conn dId now room hroom hne]

/-- Claim C7 witness: a single and a double clear on the empty state both
leave room R Blank. -/
theorem clear_blank_idempotent_witness :
    alookup "R" (handleClear st0 1 conn1 (some "D") 5 :
        HandleResult).state.roomCanvasState =
      some ⟨CanvasVal.blank, 5, some "D"⟩ :=
  (clear_blank_idempotent st0 1 conn1 (some "D") 5 "R" rfl (by decide)).1

/-! ### Claim C8: snapshot stores without broadcasting -/

theorem string_length_pos (s : String) (h : s ≠ "") : s.length > 0 := by
  have hd : s.data ≠ [] := by
    intro hnil
    apply h
    cases s
    simp only at hnil
    simp [hnil]
  have h2 : 0 < s.data.length := List.length_pos.mpr hd
  calc 0 < s.data.length := h2
    _ = s.length := String.length_data s

theorem handleSnapshot_eq (st : RelayState) (conn : ConnState)
    (dataRoomId dataDrawerId : Option String) (img : String) (now : Nat)
    (room : String) (hroom : jsOr dataRoomId conn.currentRoom = some room)
    (hne : room ≠ "") (himg : img ≠ "") :
    handleSnapshot st conn dataRoomId dataDrawerId (some img) now =
      ⟨{ st with
          roomCanvasState :=
            aset room ⟨CanvasVal.snapshot img, now, jsOr dataDrawerId conn.clientId⟩
              st.roomCanvasState },
        conn, [], []⟩ := by
  have hlen : img.length > 0 := string_length_pos img himg
  simp only [handleSnapshot, hroom]
  rw [if_pos hlen]
  simp only [setRoomImage, if_neg hne, if_neg himg]

/-- Claim C8: handling `snapshot` with a non-empty image stores
Snapshot(image) tagged with the sender as the room's canvas state, sends no
reply and no broadcast, and leaves the Session Registry, the Pending Word
Cache, the History Store, the user table and every other room's canvas
state unchanged. -/
theorem snapshot_stores_silently (st : RelayState) (conn : ConnState)
    (dataRoomId dataDrawerId : Option String) (img : String) (now : Nat)
    (room : String) (hroom : jsOr dataRoomId conn.currentRoom = some room)
    (hne : room ≠ "") (himg : img ≠ "") :
    (handleSnapshot st conn dataRoomId dataDrawerId (some img) now).replies = []
    ∧ (handleSnapshot st conn dataRoomId dataDrawerId (some img) now).broadcasts = []
    ∧ (handleSnapshot st conn dataRoomId dataDrawerId (some img) now).state.rooms
        = st.rooms
    ∧ (handleSnapshot st conn dataRoomId dataDrawerId (some img) now).state.roomWordCache
        = st.roomWordCache
    ∧ (handleSnapshot st conn dataRoomId dataDrawerId (some img) now).state.history
        = st.history
    ∧ (handleSnapshot st conn dataRoomId dataDrawerId (some img) now).state.users
        = st.users
    ∧ alookup room
        (handleSnapshot st conn dataRoomId dataDrawerId (some img) now).state.roomCanvasState
        = some ⟨CanvasVal.snapshot img, now, jsOr dataDrawerId conn.clientId⟩
    ∧ ∀ r2, r2 ≠ room →
        alookup r2
          (handleSnapshot st conn dataRoomId dataDrawerId (some img) now).state.roomCanvasState
          = alookup r2 st.roomCanvasState := by
  rw [handleSnapshot_eq st conn dataRoomId dataDrawerId img now room hroom hne himg]
  refine ⟨rfl, rfl, rfl, rfl, rfl, rfl, ?_, ?_⟩
  · simp [alookup_aset_self]
  · intro r2 h2
    simpa using alookup_aset_ne room r2 _ st.roomCanvasState (fun h => h2 h.symm)

/-- Claim C8 witness: a concrete snapshot on the empty state. -/
theorem snapshot_stores_silently_witness :
    (handleSnapshot st0 conn1 (some "R") (some "D") (some "IMG") 9).replies = []
    ∧ alookup "R"
        (handleSnapshot st0 conn1 (some "R") (some "D") (some "IMG") 9).state.roomCanvasState
        = some ⟨CanvasVal.snapshot "IMG", 9, some "D"⟩ := by
  have h := snapshot_stores_silently st0 conn1 (some "R") (some "D") "IMG" 9 "R"
    (by decide) (by decide) (by decide)
  exact ⟨h.1, by
    have h7 := h.2.2.2.2.2.2.1
    simpa using h7⟩

/-! ### Claim C5: join registers, initializes and syncs -/

theorem handleJoin_canvas (st : RelayState) (wsId : Nat) (roomId : String)
    (clientId : Option String) (userId : Option Nat) (now : Nat) (hne : roomId ≠ "") :
    (handleJoin st wsId roomId clientId userId now).state.roomCanvasState =
      (if (alookup roomId st.roomCanvasState).isNone then
        aset roomId ⟨CanvasVal.blank, now, none⟩ st.roomCanvasState
      else st.roomCanvasState) := by
  simp only [handleJoin, setRoomBlank, if_neg hne]
  by_cases h1 : (alookup roomId st.rooms).isNone
  · by_cases h2 : (alookup roomId st.roomCanvasState).isNone <;> simp [h1, h2]
  · by_cases h2 : (alookup roomId st.roomCanvasState).isNone <;> simp [h1, h2]

theorem syncMsgs_of_lookup (st : RelayState) (roomId : String) (c : RoomCanvas)
    (hne : roomId ≠ "") (hc : alookup roomId st.roomCanvasState = some c) :
    syncMsgs st roomId = [stateMsgOf c] := by
  simp only [syncMsgs, if_neg hne, hc, stateMsgOf]
  cases c.val <;> rfl

/-- Claim C5: handling `join(roomId, clientId, identityId?)` registers the
connection in the Session Registry under the room; a room with no recorded
canvas state is initialized to Blank while an existing state is kept; the
joining connection receives exactly a `joined` reply immediately followed
by one `sync` (Snapshot state) or `sync_clear` (Blank state) message
reflecting the room's canvas state — never a `draw` — and a subsequent
`request_sync` re-sends that same canvas state message. -/
theorem join_sync_contract (st : RelayState) (wsId : Nat) (roomId : String)
    (clientId : Option String) (userId : Option Nat) (now : Nat)
    (hne : roomId ≠ "") :
    (∃ info : ConnInfo,
        alookup wsId
          ((alookup roomId (handleJoin st wsId roomId clientId userId now).state.rooms).getD [])
          = some info ∧ info.clientId = clientId)
    ∧ (∃ c : RoomCanvas,
        alookup roomId (handleJoin st wsId roomId clientId userId now).state.roomCanvasState
          = some c
        ∧ (handleJoin st wsId roomId clientId userId now).replies
            = [ServerMsg.joined roomId, stateMsgOf c]
        ∧ (alookup roomId st.roomCanvasState = none → c = ⟨CanvasVal.blank, now, none⟩)
        ∧ (∀ c0, alookup roomId st.roomCanvasState = some c0 → c = c0)
        ∧ ((∃ u dr, stateMsgOf c = ServerMsg.syncClear u dr)
            ∨ (∃ i u dr, stateMsgOf c = ServerMsg.sync i u dr))
        ∧ stateMsgOf c ≠ ServerMsg.draw
        ∧ handleRequestSync (handleJoin st wsId roomId clientId userId now).state
            (handleJoin st wsId roomId clientId userId now).conn none
            = [stateMsgOf c]) := by
  constructor
  · refine ⟨⟨(handleJoin st wsId roomId clientId userId now).conn.clientId,
      (handleJoin st wsId roomId clientId userId now).conn.userId⟩, ?_, rfl⟩
    simp only [handleJoin]
    simp [alookup_aset_self]
  · have hcanvas := handleJoin_canvas st wsId roomId clientId userId now hne
    have hconn : (handleJoin st wsId roomId clientId userId now).conn.currentRoom
        = some roomId := rfl
    have hreplies : (handleJoin st wsId roomId clientId userId now).replies
        = ServerMsg.joined roomId ::
            syncMsgs (handleJoin st wsId roomId clientId userId now).state roomId := rfl
    by_cases h2 : (alookup roomId st.roomCanvasState).isNone
    · refine ⟨⟨CanvasVal.blank, now, none⟩, ?_, ?_, ?_, ?_, ?_, ?_, ?_⟩
      · rw [hcanvas, if_pos h2]
        exact alookup_aset_self roomId _ st.roomCanvasState
      · rw [hreplies, syncMsgs_of_lookup _ roomId _ hne
          (by rw [hcanvas, if_pos h2]; exact alookup_aset_self roomId _ st.roomCanvasState)]
      · intro _; rfl
      · intro c0 hc0
        rw [Option.isNone_iff_eq_none] at h2
        rw [h2] at hc0
        exact absurd hc0 (by simp)
      · exact Or.inl ⟨now, none, rfl⟩
      · intro h; cases h
      · simp only [handleRequestSync, jsOr, hconn]
        exact syncMsgs_of_lookup _ roomId _ hne
          (by rw [hcanvas, if_pos h2]; exact alookup_aset_self roomId _ st.roomCanvasState)
    · obtain ⟨c0, hc0⟩ := Option.ne_none_iff_exists.mp
        (by simpa [Option.isNone_iff_eq_none] using h2)
      have hc0 : alookup roomId st.roomCanvasState = some c0 := hc0.symm
      have hlook : alookup roomId
          (handleJoin st wsId roomId clientId userId now).state.roomCanvasState = some c0 := by
        rw [hcanvas, if_neg h2]; exact hc0
      refine ⟨c0, hlook, ?_, ?_, ?_, ?_, ?_, ?_⟩
      · rw [hreplies, syncMsgs_of_lookup _ roomId _ hne hlook]
      · intro habs; rw [habs] at hc0; exact absurd hc0 (by simp)
      · intro c1 hc1; rw [hc0] at hc1; exact Option.some_inj.mp hc1
      · cases hval : c0.val with
        | blank => exact Or.inl ⟨c0.updatedAt, c0.drawerId, by simp [stateMsgOf, hval]⟩
        | snapshot i => exact Or.inr ⟨i, c0.updatedAt, c0.drawerId, by simp [stateMsgOf, hval]⟩
      · cases hval : c0.val <;> simp [stateMsgOf, hval]
      · simp only [handleRequestSync, jsOr, hconn]
        exact syncMsgs_of_lookup _ roomId _ hne hlook

/-- Claim C5 witness: joining room R on the empty state yields `joined`
followed by `sync_clear`. -/
theorem join_sync_contract_witness :
    (handleJoin st0 5 "R" (some "D") (some 7) 42).replies
      = [ServerMsg.joined "R", ServerMsg.syncClear 42 none] := by
  obtain ⟨-, c, hc, hrep, hblank, -⟩ := join_sync_contract st0 5 "R" (some "D") (some 7) 42
    (by decide)
  rw [hrep, hblank (by decide)]
  rfl

/-! ### Claim C6: normalized coordinates resolve to the same relative position -/

theorem clamp01_of_bounds (v : ℚ) (h0 : 0 ≤ v) (h1 : v ≤ 1) : clamp01 v = v := by
  unfold clamp01
  rw [min_eq_right h1, max_eq_right h0]

/-- Claim C6: a draw or fill event whose normalized coordinates are present
resolves, on any two receivers with differing buffer dimensions, to the
same relative position (applied x over local width, applied y over local
height) — exactly, hence within ±1 pixel — independently of the legacy
absolute-pixel fields; and when the sender normalized an in-bounds pixel
coordinate by its own buffer dimension, the receiver's relative position
equals the sender's x/width (resp. y/height). -/
theorem draw_relative_position (m : DrawWire) (nxv nyv x y w hgt wA hA wB hB : ℚ)
    (hnx : m.nx = some nxv) (hny : m.ny = some nyv)
    (hwA : 0 < wA) (hhA : 0 < hA) (hwB : 0 < wB) (hhB : 0 < hB)
    (hw : 0 < w) (hh : 0 < hgt)
    (hx0 : 0 ≤ x) (hxw : x ≤ w) (hy0 : 0 ≤ y) (hyh : y ≤ hgt) :
    (applyX m wA / wA = applyX m wB / wB)
    ∧ (applyY m hA / hA = applyY m hB / hB)
    ∧ (∀ x1 y1 px py : ℚ,
        applyX { m with x := x1, y := y1, prevX := px, prevY := py } wA = applyX m wA
        ∧ applyY { m with x := x1, y := y1, prevX := px, prevY := py } hA = applyY m hA)
    ∧ (applyX { m with nx := some (normCoord x w) } wA / wA = x / w)
    ∧ (applyY { m with ny := some (normCoord y hgt) } hA / hA = y / hgt)
    ∧ |applyX m wA / wA - applyX m wB / wB| ≤ 1 := by
  have hxa : applyX m wA / wA = clamp01 nxv := by
    simp only [applyX, hnx]
    exact mul_div_cancel_right₀ _ (ne_of_gt hwA)
  have hxb : applyX m wB / wB = clamp01 nxv := by
    simp only [applyX, hnx]
    exact mul_div_cancel_right₀ _ (ne_of_gt hwB)
  have hya : applyY m hA / hA = clamp01 nyv := by
    simp only [applyY, hny]
    exact mul_div_cancel_right₀ _ (ne_of_gt hhA)
  have hyb : applyY m hB / hB = clamp01 nyv := by
    simp only [applyY, hny]
    exact mul_div_cancel_right₀ _ (ne_of_gt hhB)
  have hnormx : normCoord x w = x / w := by simp [normCoord, ne_of_gt hw]
  have hnormy : normCoord y hgt = y / hgt := by simp [normCoord, ne_of_gt hh]
  have hclampx : clamp01 (x / w) = x / w :=
    clamp01_of_bounds _ (div_nonneg hx0 (le_of_lt hw)) ((div_le_one hw).mpr hxw)
  have hclampy : clamp01 (y / hgt) = y / hgt :=
    clamp01_of_bounds _ (div_nonneg hy0 (le_of_lt hh)) ((div_le_one hh).mpr hyh)
  refine ⟨hxa.trans hxb.symm, hya.trans hyb.symm, ?_, ?_, ?_, ?_⟩
  · intro x1 y1 px py
    constructor <;> simp [applyX, applyY, hnx, hny]
  · simp only [applyX]
    rw [hnormx, mul_div_cancel_right₀ _ (ne_of_gt hwA), hclampx]
  · simp only [applyY]
    rw [hnormy, mul_div_cancel_right₀ _ (ne_of_gt hhA), hclampy]
  · rw [hxa, hxb]
    simp

/-- Claim C6 witness: the event normalized at (1/2, 1/4) from a 200×100
buffer lands at the same relative position on a 640×480 and a 37×91
receiver. -/
theorem draw_relative_position_witness :
    applyX ⟨100, 25, 0, 0, some (normCoord 100 200), some (normCoord 25 100),
        some 0, some 0⟩ 640 / 640
      = applyX ⟨100, 25, 0, 0, some (normCoord 100 200), some (normCoord 25 100),
        some 0, some 0⟩ 37 / 37 :=
  (draw_relative_position
    ⟨100, 25, 0, 0, some (normCoord 100 200), some (normCoord 25 100), some 0, some 0⟩
    (normCoord 100 200) (normCoord 25 100) 100 25 200 100 640 480 37 91
    rfl rfl (by norm_num) (by norm_num) (by norm_num) (by norm_num) (by norm_num)
    (by norm_num) (by norm_num) (by norm_num) (by norm_num) (by norm_num)).1

/-! ### Claim C1: publish failure fallback and error replies -/

/-- On non-Windows platforms a failed first invocation of the publish
command produces no fallback attempt and no reply at all: the request goes
unanswered, contradicting the claim that every failing `publish_blob` is
answered with `blob_error` after exactly one fallback invocation. -/
theorem publish_failure_unanswered_cx :
    (handlePublishBlob st0 conn1 none (some "IMG") false none none 0).replies = []
    ∧ (handlePublishBlob st0 conn1 none (some "IMG") false none none 0).invocations = 1 := by
  constructor <;> rfl

theorem tryPublishChain_failure_spec (st : RelayState) (conn : ConnState)
    (pl : Option Payload) (fw : TempContent) (isW : Bool) (r1 r2 : Option String)
    (ts : Nat) :
    (r1 = none → isW = true →
        (tryPublishChain st conn pl fw isW r1 r2 ts).invocations = 2
        ∧ (r2 = none →
            (tryPublishChain st conn pl fw isW r1 r2 ts).replies
              = [ServerMsg.blobError "Failed to publish blob"])
        ∧ (∀ out, r2 = some out → parseHash out = none →
            (tryPublishChain st conn pl fw isW r1 r2 ts).replies
              = [ServerMsg.blobError "Could not parse blob hash"]))
    ∧ (r1 = none → isW = false →
        (tryPublishChain st conn pl fw isW r1 r2 ts).invocations = 1
        ∧ (tryPublishChain st conn pl fw isW r1 r2 ts).replies = [])
    ∧ (∀ out, r1 = some out → parseHash out = none →
        (tryPublishChain st conn pl fw isW r1 r2 ts).invocations = 1
        ∧ (tryPublishChain st conn pl fw isW r1 r2 ts).replies
            = [ServerMsg.blobError "Could not parse blob hash"]) := by
  refine ⟨?_, ?_, ?_⟩
  · rintro rfl rfl
    refine ⟨?_, ?_, ?_⟩
    · cases r2 with
      | none => rfl
      | some out =>
        cases hp : parseHash out with
        | none => simp [tryPublishChain, hp]
        | some h => simp [tryPublishChain, hp]
    · rintro rfl; rfl
    · rintro out rfl hp
      simp [tryPublishChain, hp]
  · rintro rfl rfl
    exact ⟨rfl, rfl⟩
  · rintro out rfl hp
    constructor <;> simp [tryPublishChain, hp]

/-- Claim C1 (amended): when a `publish_blob` request reaches the external
command, a failed first invocation triggers exactly one WSL fallback
invocation only when the process platform is win32 — in which case a second
failure or unparseable output is answered with `blob_error` — while on any
other platform the failure triggers no fallback and no reply at all; a
first invocation that succeeds with output from which no 64-character hex
hash can be parsed is answered with `blob_error`. -/
theorem publish_failure_fallback_spec (st : RelayState) (conn : ConnState)
    (payload : Option Payload) (image : Option String) (isW : Bool)
    (r1 r2 : Option String) (ts : Nat)
    (h : payload.isSome = true ∨ imageTruthy image = true) :
    (r1 = none → isW = true →
        (handlePublishBlob st conn payload image isW r1 r2 ts).invocations = 2
        ∧ (r2 = none →
            (handlePublishBlob st conn payload image isW r1 r2 ts).replies
              = [ServerMsg.blobError "Failed to publish blob"])
        ∧ (∀ out, r2 = some out → parseHash out = none →
            (handlePublishBlob st conn payload image isW r1 r2 ts).replies
              = [ServerMsg.blobError "Could not parse blob hash"]))
    ∧ (r1 = none → isW = false →
        (handlePublishBlob st conn payload image isW r1 r2 ts).invocations = 1
        ∧ (handlePublishBlob st conn payload image isW r1 r2 ts).replies = [])
    ∧ (∀ out, r1 = some out → parseHash out = none →
        (handlePublishBlob st conn payload image isW r1 r2 ts).invocations = 1
        ∧ (handlePublishBlob st conn payload image isW r1 r2 ts).replies
            = [ServerMsg.blobError "Could not parse blob hash"]) := by
  cases payload with
  | some p0 =>
    simp only [handlePublishBlob]
    exact tryPublishChain_failure_spec st conn _ _ isW r1 r2 ts
  | none =>
    have himg : imageTruthy image = true := by
      rcases h with h | h
      · simp at h
      · exact h
    simp only [handlePublishBlob, himg, if_pos]
    exact tryPublishChain_failure_spec st conn _ _ isW r1 r2 ts

/-- Claim C1 witness: on win32, a double failure yields two invocations. -/
theorem publish_failure_fallback_spec_witness :
    (handlePublishBlob st0 conn1 none (some "IMG") true none none 0).invocations = 2 :=
  ((publish_failure_fallback_spec st0 conn1 none (some "IMG") true none none 0
    (Or.inr rfl)).1 rfl rfl).1

/-! ### Claim C2: word backfill from the Pending Word Assertion -/

theorem backfillMeta_eq (c : CachedWord) (m : Meta) :
    backfillMeta (some c) (some m) =
      if (jsTrim (m.word.getD "") == "") && metaMatches c m then
        some { m with word := some c.word }
      else some m := rfl

theorem tryPublishChain_written_head (st : RelayState) (conn : ConnState)
    (pl : Option Payload) (fw : TempContent) (isW : Bool) (r1 r2 : Option String)
    (ts : Nat) :
    (tryPublishChain st conn pl fw isW r1 r2 ts).written.head? = some fw := by
  cases r1 with
  | some out =>
    cases hp : parseHash out with
    | none => simp [tryPublishChain, hp]
    | some h => simp [tryPublishChain, hp]
  | none =>
    cases isW with
    | false => rfl
    | true =>
      cases r2 with
      | none => rfl
      | some out =>
        cases hp : parseHash out with
        | none => simp [tryPublishChain, hp]
        | some h => simp [tryPublishChain, hp]

/-- Additional concrete data for the word-backfill theorems. -/
def cW : CachedWord := ⟨"cat", some 2, some "D", some "T", 0⟩

def stW : RelayState := ⟨[], [("R", cW)], [], [], []⟩

def metaW : Meta := ⟨some "", JsNum.num 2, some "D", some "T"⟩

/-- The room of `stC2` holds the assertion word "cat" for round 2, drawer
D, turn T; a `publish_blob` whose meta carries an empty word, matching
drawer and turn ids but a JSON-null round serializes an artifact whose
word is still empty: the `Number(null) = 0` coercion makes the null round
mismatch the assertion round 2, although the claim promises that a null
field matches anything. -/
theorem null_round_blocks_backfill_cx :
    (handlePublishBlob stC2 conn1 (some payloadC2) none false none none 0).written
        = [TempContent.json payloadC2]
    ∧ (alookup "R" stC2.roomWordCache).map CachedWord.word = some "cat"
    ∧ metaC2.word = some "" := by
  refine ⟨?_, by decide, rfl⟩
  decide

/-- Claim C2 (amended): with a live Pending Word Assertion for the sender's
room and a `publish_blob` payload carrying a meta object, the serialized
artifact is the payload with `backfillMeta` applied; the word is backfilled
from the assertion exactly when the trimmed meta word is empty and the
assertion matches the meta per `metaMatches` — each of drawerId and turnId
matching when either side is absent, null or blank, and the rounds matching
when either side is non-numeric or absent, a JSON-null round being coerced
to the number 0 — and the meta word is left unchanged whenever it is
non-empty or any field mismatches. -/
theorem word_backfill_matching_spec (st : RelayState) (conn : ConnState)
    (p0 : Payload) (isW : Bool) (r1 r2 : Option String) (ts : Nat)
    (room : String) (c : CachedWord) (m : Meta)
    (hroom : conn.currentRoom = some room) (hr : room ≠ "")
    (hc : alookup room st.roomWordCache = some c) (hm : p0.meta = some m) :
    ((handlePublishBlob st conn (some p0) none isW r1 r2 ts).written.head? =
        some (TempContent.json { p0 with meta := backfillMeta (some c) (some m) }))
    ∧ (jsTrim (m.word.getD "") = "" → metaMatches c m = true →
        backfillMeta (some c) (some m) = some { m with word := some c.word })
    ∧ (jsTrim (m.word.getD "") ≠ "" → backfillMeta (some c) (some m) = some m)
    ∧ (metaMatches c m = false → backfillMeta (some c) (some m) = some m) := by
  refine ⟨?_, ?_, ?_, ?_⟩
  · have : handlePublishBlob st conn (some p0) none isW r1 r2 ts =
        tryPublishChain st conn (some { p0 with meta := backfillMeta (some c) (some m) })
          (TempContent.json { p0 with meta := backfillMeta (some c) (some m) })
          isW r1 r2 ts := by
      simp only [handlePublishBlob, hroom, hc, hm, if_neg hr]
    rw [this]
    exact tryPublishChain_written_head st conn _ _ isW r1 r2 ts
  · intro hw hmatch
    rw [backfillMeta_eq, if_pos]
    rw [hw, hmatch]
    rfl
  · intro hw
    rw [backfillMeta_eq, if_neg]
    intro habs
    rw [Bool.and_eq_true, beq_iff_eq] at habs
    exact hw habs.1
  · intro hmatch
    rw [backfillMeta_eq, if_neg]
    intro habs
    rw [Bool.and_eq_true] at habs
    rw [hmatch] at habs
    exact Bool.false_ne_true habs.2

/-- Claim C2 witness: a fully matching assertion backfills the empty word. -/
theorem word_backfill_matching_witness :
    backfillMeta (some cW) (some metaW) = some ⟨some "cat", JsNum.num 2, some "D", some "T"⟩ :=
  (word_backfill_matching_spec stW conn1 ⟨some metaW⟩ false none none 0 "R" cW metaW
    rfl (by decide) rfl rfl).2.1 (by decide) (by decide)

/-! ### Claim C9: save_history then get_history -/

theorem insertDesc_perm (r : HistOut) (l : List HistOut) :
    (insertDesc r l).Perm (r :: l) := by
  induction l with
  | nil => exact List.Perm.refl _
  | cons x xs ih =>
    by_cases h : x.timestamp ≤ r.timestamp
    · simp only [insertDesc, if_pos h]
      exact List.Perm.refl _
    · simp only [insertDesc, if_neg h]
      exact (ih.cons x).trans (List.Perm.swap r x xs)

theorem sortDesc_perm (l : List HistOut) : (sortDesc l).Perm l := by
  induction l with
  | nil => exact List.Perm.refl _
  | cons x xs ih =>
    simp only [sortDesc]
    exact (insertDesc_perm x (sortDesc xs)).trans (ih.cons x)

theorem insertDesc_pairwise (r : HistOut) (l : List HistOut)
    (h : l.Pairwise (fun a b => b.timestamp ≤ a.timestamp)) :
    (insertDesc r l).Pairwise (fun a b => b.timestamp ≤ a.timestamp) := by
  induction l with
  | nil => simp [insertDesc]
  | cons x xs ih =>
    rw [List.pairwise_cons] at h
    obtain ⟨hx, hxs⟩ := h
    by_cases hle : x.timestamp ≤ r.timestamp
    · simp only [insertDesc, if_pos hle]
      rw [List.pairwise_cons]
      refine ⟨?_, List.pairwise_cons.mpr ⟨hx, hxs⟩⟩
      intro y hy
      rcases List.mem_cons.mp hy with rfl | hy2
      · exact hle
      · exact le_trans (hx y hy2) hle
    · simp only [insertDesc, if_neg hle]
      rw [List.pairwise_cons]
      refine ⟨?_, ih hxs⟩
      intro y hy
      rcases List.mem_cons.mp ((insertDesc_perm r xs).mem_iff.mp hy) with rfl | hy2
      · exact le_of_not_le hle
      · exact hx y hy2

theorem sortDesc_pairwise (l : List HistOut) :
    (sortDesc l).Pairwise (fun a b => b.timestamp ≤ a.timestamp) := by
  induction l with
  | nil => simp [sortDesc]
  | cons x xs ih => exact insertDesc_pairwise x (sortDesc xs) ih

theorem saveHistory_users (st : RelayState) (uid : Nat) (roomId : String)
    (hashes : List String) (clock : Nat → Nat) :
    (saveHistory st uid roomId hashes clock).users = st.users := by
  by_cases h0 : uid = 0 <;> by_cases h1 : roomId = "" <;> simp [saveHistory, h0, h1]

theorem saveHistory_history (st : RelayState) (uid : Nat) (roomId : String)
    (hashes : List String) (clock : Nat → Nat) (huid : uid ≠ 0) (hroom : roomId ≠ "") :
    (saveHistory st uid roomId hashes clock).history =
      st.history ++
        (List.range hashes.length).map
          (fun i => ⟨uid, roomId, hashes.getD i "", clock i⟩) := by
  simp [saveHistory, huid, hroom]

theorem historyRowsFor_save (st : RelayState) (uid : Nat) (nick roomId : String)
    (hashes : List String) (clock : Nat → Nat)
    (hmem : (uid, nick) ∈ st.users) (huid : uid ≠ 0) (hroom : roomId ≠ "") :
    historyRowsFor (saveHistory st uid roomId hashes clock) nick
      = historyRowsFor st nick ++
          (List.range hashes.length).map
            (fun i => ⟨hashes.getD i "", clock i, roomId⟩) := by
  simp only [historyRowsFor, saveHistory_users,
    saveHistory_history st uid roomId hashes clock huid hroom]
  rw [List.filter_append, List.map_append]
  congr 1
  have hall : ∀ r ∈ (List.range hashes.length).map
      (fun i => (⟨uid, roomId, hashes.getD i "", clock i⟩ : HistRecord)),
      (st.users.any (fun u => u.1 == r.userId && u.2 == nick)) = true := by
    intro r hr
    obtain ⟨i, _, rfl⟩ := List.mem_map.mp hr
    exact List.any_eq_true.mpr ⟨(uid, nick), hmem, by simp⟩
  rw [List.filter_eq_self.mpr hall, List.map_map]
  rfl

theorem historyRowsFor_as_uid (st : RelayState) (uid : Nat) (nick : String)
    (hmem : (uid, nick) ∈ st.users)
    (huniq : ∀ p ∈ st.users, p.2 = nick → p.1 = uid) :
    historyRowsFor st nick =
      (st.history.filter (fun r => r.userId == uid)).map
        (fun r => ⟨r.blobHash, r.timestamp, r.roomId⟩) := by
  simp only [historyRowsFor]
  congr 1
  apply List.filter_congr
  intro r _
  cases hAny : st.users.any (fun u => u.1 == r.userId && u.2 == nick) with
  | true =>
    obtain ⟨u, hu, hcond⟩ := List.any_eq_true.mp hAny
    rw [Bool.and_eq_true, beq_iff_eq, beq_iff_eq] at hcond
    have : u.1 = uid := huniq u hu hcond.2
    rw [← hcond.1, this]
    simp
  | false =>
    cases hEq : (r.userId == uid) with
    | false => rfl
    | true =>
      exfalso
      have : st.users.any (fun u => u.1 == r.userId && u.2 == nick) = true :=
        List.any_eq_true.mpr ⟨(uid, nick), hmem, by simp [beq_iff_eq.mp hEq]⟩
      rw [hAny] at this
      cases this

/-- Claim C9: after `save_history(identityId, roomId, hashes)`, a
`get_history` for that identity's display name returns exactly the records
of that identity — a permutation of the projected identity rows, containing
for each inserted hash a record carrying the hash, its insert timestamp and
the room id — ordered by timestamp newest first; with strictly increasing
insert timestamps, a later-inserted hash appears strictly earlier in the
result than an earlier-inserted one. -/
theorem save_get_history_spec (st : RelayState) (uid : Nat) (nick roomId : String)
    (hashes : List String) (clock : Nat → Nat)
    (hmem : (uid, nick) ∈ st.users)
    (huniq : ∀ p ∈ st.users, p.2 = nick → p.1 = uid)
    (huid : uid ≠ 0) (hroom : roomId ≠ "")
    (hmono : ∀ k l, k < l → l < hashes.length → clock k < clock l) :
    (getHistory (saveHistory st uid roomId hashes clock) nick).Perm
        (((saveHistory st uid roomId hashes clock).history.filter
            (fun r => r.userId == uid)).map
          (fun r => ⟨r.blobHash, r.timestamp, r.roomId⟩))
    ∧ (∀ i, i < hashes.length →
        (⟨hashes.getD i "", clock i, roomId⟩ : HistOut) ∈
          getHistory (saveHistory st uid roomId hashes clock) nick)
    ∧ (getHistory (saveHistory st uid roomId hashes clock) nick).Pairwise
        (fun a b => b.timestamp ≤ a.timestamp)
    ∧ (∀ i j : Fin (getHistory (saveHistory st uid roomId hashes clock) nick).length,
        ((getHistory (saveHistory st uid roomId hashes clock) nick).get i).timestamp
            < ((getHistory (saveHistory st uid roomId hashes clock) nick).get j).timestamp
          → (j : Nat) < (i : Nat))
    ∧ (∀ (i j : Fin (getHistory (saveHistory st uid roomId hashes clock) nick).length)
        (k l : Nat), k < hashes.length → l < hashes.length →
        ((getHistory (saveHistory st uid roomId hashes clock) nick).get i).timestamp
          = clock k →
        ((getHistory (saveHistory st uid roomId hashes clock) nick).get j).timestamp
          = clock l →
        k < l → (j : Nat) < (i : Nat)) := by
  have hmem2 : (uid, nick) ∈ (saveHistory st uid roomId hashes clock).users := by
    rw [saveHistory_users]; exact hmem
  have huniq2 : ∀ p ∈ (saveHistory st uid roomId hashes clock).users,
      p.2 = nick → p.1 = uid := by
    rw [saveHistory_users]; exact huniq
  have hperm := sortDesc_perm (historyRowsFor (saveHistory st uid roomId hashes clock) nick)
  have hpair := sortDesc_pairwise (historyRowsFor (saveHistory st uid roomId hashes clock) nick)
  have hget : ∀ i j : Fin (getHistory (saveHistory st uid roomId hashes clock) nick).length,
      ((getHistory (saveHistory st uid roomId hashes clock) nick).get i).timestamp
          < ((getHistory (saveHistory st uid roomId hashes clock) nick).get j).timestamp
        → (j : Nat) < (i : Nat) := by
    intro i j hlt
    have hp : (getHistory (saveHistory st uid roomId hashes clock) nick).Pairwise
        (fun a b => b.timestamp ≤ a.timestamp) := hpair
    rcases lt_trichotomy (i : Nat) (j : Nat) with hij | hij | hij
    · have := List.pairwise_iff_get.mp hp i j (Fin.lt_def.mpr hij)
      omega
    · have : i = j := Fin.ext hij
      rw [this] at hlt
      omega
    · exact hij
  refine ⟨?_, ?_, hpair, hget, ?_⟩
  · have he := historyRowsFor_as_uid (saveHistory st uid roomId hashes clock) uid nick
      hmem2 huniq2
    simp only [getHistory]
    rw [he]
    exact sortDesc_perm _
  · intro i hi
    apply hperm.mem_iff.mpr
    rw [historyRowsFor_save st uid nick roomId hashes clock hmem huid hroom]
    apply List.mem_append_right
    exact List.mem_map.mpr ⟨i, List.mem_range.mpr hi, rfl⟩
  · intro i j k l hk hl hik hjl hkl
    exact hget i j (by rw [hik, hjl]; exact hmono k l hkl hl)

/-- Claim C9 witness: inserting two hashes with increasing timestamps for
identity 7 (nickname N) and reading them back. -/
theorem save_get_history_spec_witness :
    (⟨"def", 11, "R1"⟩ : HistOut) ∈
      getHistory (saveHistory ⟨[], [], [], [(7, "N")], []⟩ 7 "R1" ["abc", "def"]
        (fun i => 10 + i)) "N" :=
  (save_get_history_spec ⟨[], [], [], [(7, "N")], []⟩ 7 "N" "R1" ["abc", "def"]
    (fun i => 10 + i) (by decide) (by decide) (by decide) (by decide)
    (by intro k l h1 h2; show 10 + k < 10 + l; omega)).2.1 1 (by decide)

/-! ### Claim C3: auto word submit timer -/

theorem wordActions_cons (s : WordClock) (e : WordEvent) (l : List WordEvent) :
    wordActions s (e :: l)
      = (wordStep s e).2.toList ++ wordActions (wordStep s e).1 l := rfl

theorem cancelWordTimeout_pending_nil (s : WordClock)
    (h : ∀ t ∈ s.pending, s.timeoutRef = some t.tid) :
    (cancelWordTimeout s).pending = [] := by
  simp only [cancelWordTimeout]
  apply List.filter_eq_nil_iff.mpr
  intro t ht
  rw [h t ht]
  simp

theorem wordInv_init : wordInv WordClock.init := by
  constructor <;> simp [WordClock.init, wordInv]

theorem wordInv_step (s : WordClock) (e : WordEvent) (h : wordInv s) :
    wordInv (wordStep s e).1 := by
  obtain ⟨h1, h2⟩ := h
  cases e with
  | observe now amI obs opts =>
    have hcp := cancelWordTimeout_pending_nil s h2
    simp only [wordStep]
    by_cases hg : (amI && awaitingWord obs) = true
    · rw [if_pos hg]
      cases hdc : obs.drawerChosenAt with
      | some dc =>
        refine ⟨?_, ?_⟩
        · simp [hcp]
        · intro t ht
          simp only [hcp, List.nil_append, List.mem_singleton] at ht
          rw [ht]
      | none =>
        refine ⟨?_, ?_⟩
        · simp [hcp]
        · intro t ht
          rw [hcp] at ht
          cases ht
    · rw [if_neg hg]
      refine ⟨?_, ?_⟩
      · simp [hcp]
      · intro t ht
        rw [hcp] at ht
        cases ht
  | fire tid obs =>
    cases hf : s.pending.find? (fun t => t.tid == tid) with
    | none =>
      simp only [wordStep, hf]
      exact ⟨h1, h2⟩
    | some t =>
      simp only [wordStep, hf]
      refine ⟨le_trans (List.length_filter_le _ _) h1, ?_⟩
      intro u hu
      exact h2 u (List.mem_of_mem_filter hu)

theorem wordRun_inv (tr : List WordEvent) (s : WordClock) (h : wordInv s) :
    wordInv (wordRun s tr) := by
  induction tr generalizing s with
  | nil => exact h
  | cons e es ih => exact ih (wordStep s e).1 (wordInv_step s e h)

theorem wordTimerOK_step (s : WordClock) (e : WordEvent) (hs : wordTimerOK s)
    (he : wordObsClockOK e = true) : wordTimerOK (wordStep s e).1 := by
  cases e with
  | observe now amI obs opts =>
    simp only [wordStep]
    have hsub : wordTimerOK (cancelWordTimeout s) := by
      intro t ht
      exact hs t (List.mem_of_mem_filter ht)
    by_cases hg : (amI && awaitingWord obs) = true
    · rw [if_pos hg]
      cases hdc : obs.drawerChosenAt with
      | some dc =>
        intro t ht
        rcases List.mem_append.mp ht with ht2 | ht2
        · exact hsub t ht2
        · rw [List.mem_singleton] at ht2
          rw [ht2]
          have hdcle : dc ≤ now := by
            simp only [wordObsClockOK, hdc] at he
            exact of_decide_eq_true he
          simp only []
          omega
      | none => exact hsub
    · rw [if_neg hg]
      exact hsub
  | fire tid obs =>
    cases hf : s.pending.find? (fun t => t.tid == tid) with
    | none => simpa only [wordStep, hf] using hs
    | some t =>
      simp only [wordStep, hf]
      intro u hu
      exact hs u (List.mem_of_mem_filter hu)

theorem wordActions_bound (tr : List WordEvent) (s : WordClock)
    (hs : wordTimerOK s) (hcl : ∀ e ∈ tr, wordObsClockOK e = true) :
    ∀ a ∈ wordActions s tr,
      a.dcAt + 15000 ≤ a.firedAt ∧ a.word = firstWordChoice a.opts := by
  induction tr generalizing s with
  | nil => intro a ha; cases ha
  | cons e es ih =>
    intro a ha
    rw [wordActions_cons, List.mem_append] at ha
    rcases ha with ha | ha
    · cases e with
      | observe now amI obs opts =>
        exfalso
        simp only [wordStep] at ha
        by_cases hg : (amI && awaitingWord obs) = true
        · rw [if_pos hg] at ha
          cases hdc : obs.drawerChosenAt <;> simp [hdc] at ha
        · rw [if_neg hg] at ha
          simp at ha
      | fire tid obs =>
        cases hf : s.pending.find? (fun t => t.tid == tid) with
        | none => simp [wordStep, hf] at ha
        | some t =>
          simp only [wordStep, hf] at ha
          by_cases hwc : obs.wordChosenAt.isNone = true
          · rw [if_pos hwc] at ha
            rw [Option.toList_some, List.mem_singleton] at ha
            rw [ha]
            exact ⟨hs t (List.mem_of_find?_eq_some hf), rfl⟩
          · rw [if_neg hwc] at ha
            cases ha
    · exact ih (wordStep s e).1
        (wordTimerOK_step s e hs (hcl e (List.mem_cons_self e es)))
        (fun e2 he2 => hcl e2 (List.mem_cons_of_mem e he2)) a ha

theorem wordActions_avoid (tr : List WordEvent) (s : WordClock) (d : Nat)
    (hp : ∀ t ∈ s.pending, t.dcAt ≠ d)
    (hobs : ∀ e ∈ tr, wordObsBad d e = false) :
    ∀ a ∈ wordActions s tr, a.dcAt ≠ d := by
  induction tr generalizing s with
  | nil => intro a ha; cases ha
  | cons e es ih =>
    have hp2 : ∀ t ∈ (wordStep s e).1.pending, t.dcAt ≠ d := by
      cases e with
      | observe now amI obs opts =>
        simp only [wordStep]
        by_cases hg : (amI && awaitingWord obs) = true
        · rw [if_pos hg]
          cases hdc : obs.drawerChosenAt with
          | some dc =>
            intro t ht
            rcases List.mem_append.mp ht with ht2 | ht2
            · exact hp t (List.mem_of_mem_filter ht2)
            · rw [List.mem_singleton] at ht2
              rw [ht2]
              intro habs
              simp only at habs
              have hwcn : obs.wordChosenAt.isNone = true := by
                simp only [awaitingWord, Bool.and_eq_true] at hg
                exact hg.2.2
              have hbadt : wordObsBad d (WordEvent.observe now amI obs opts) = true := by
                simp [wordObsBad, hdc, habs, hwcn]
              have hbadf := hobs _ (List.mem_cons_self _ es)
              rw [hbadt] at hbadf
              cases hbadf
          | none =>
            intro t ht
            exact hp t (List.mem_of_mem_filter ht)
        · rw [if_neg hg]
          intro t ht
          exact hp t (List.mem_of_mem_filter ht)
      | fire tid obs =>
        cases hf : s.pending.find? (fun t => t.tid == tid) with
        | none => simpa only [wordStep, hf] using hp
        | some t =>
          simp only [wordStep, hf]
          intro u hu
          exact hp u (List.mem_of_mem_filter hu)
    intro a ha
    rw [wordActions_cons, List.mem_append] at ha
    rcases ha with ha | ha
    · cases e with
      | observe now amI obs opts =>
        exfalso
        simp only [wordStep] at ha
        by_cases hg : (amI && awaitingWord obs) = true
        · rw [if_pos hg] at ha
          cases hdc : obs.drawerChosenAt <;> simp [hdc] at ha
        · rw [if_neg hg] at ha
          simp at ha
      | fire tid obs =>
        cases hf : s.pending.find? (fun t => t.tid == tid) with
        | none => simp [wordStep, hf] at ha
        | some t =>
          simp only [wordStep, hf] at ha
          by_cases hwc : obs.wordChosenAt.isNone = true
          · rw [if_pos hwc] at ha
            rw [Option.toList_some, List.mem_singleton] at ha
            rw [ha]
            exact hp t (List.mem_of_find?_eq_some hf)
          · rw [if_neg hwc] at ha
            cases ha
    · exact ih (wordStep s e).1 hp2
        (fun e2 he2 => hobs e2 (List.mem_cons_of_mem e he2)) a ha

theorem list_getD_get {α : Type} (l : List α) (n : Nat) (h : n < l.length) (d : α) :
    l.getD n d = l.get ⟨n, h⟩ := by
  rw [List.getD_eq_get?, List.get?_eq_get h]
  rfl

theorem singleton_of_length_le_one {α : Type} (l : List α) (h : l.length ≤ 1)
    (a : α) (ha : a ∈ l) : l = [a] := by
  cases l with
  | nil => cases ha
  | cons x xs =>
    cases xs with
    | nil =>
      rw [List.mem_singleton] at ha
      rw [ha]
    | cons y ys => simp at h

theorem WordEnvOK_tail (s : WordClock) (e : WordEvent) (es : List WordEvent) (d : Nat)
    (h : WordEnvOK s (e :: es) d) : WordEnvOK (wordStep s e).1 es d := by
  intro n hn hany
  have hlt : n + 1 < (e :: es).length := by simp only [List.length_cons]; omega
  have hany2 : (wordActions s ((e :: es).take (n + 1))).any (fun a => a.dcAt == d)
      = true := by
    rw [List.take_succ_cons, wordActions_cons, List.any_append, hany]
    simp
  have h2 := h (n + 1) hlt hany2
  exact h2

theorem WordEnvOK_after (s : WordClock) (e : WordEvent) (es : List WordEvent) (d : Nat)
    (h : WordEnvOK s (e :: es) d) (a : WordAction)
    (hout : (wordStep s e).2 = some a) (had : (a.dcAt == d) = true) :
    ∀ e2 ∈ es, wordObsBad d e2 = false := by
  intro e2 he2
  obtain ⟨⟨n, hn⟩, rfl⟩ := List.mem_iff_get.mp he2
  have hlt : n + 1 < (e :: es).length := by simp only [List.length_cons]; omega
  have hany2 : (wordActions s ((e :: es).take (n + 1))).any (fun x => x.dcAt == d)
      = true := by
    rw [List.take_succ_cons, wordActions_cons, hout, List.any_append]
    simp only [Option.toList_some, List.any_cons, had, Bool.true_or, Bool.or_eq_true]
  have h2 := h (n + 1) hlt hany2
  have hDg : (e :: es).getD (n + 1) defaultWordEvent = es.getD n defaultWordEvent := rfl
  rw [hDg, list_getD_get es n hn] at h2
  exact h2

theorem wordActions_once (tr : List WordEvent) (s : WordClock) (d : Nat)
    (hinv : wordInv s) (henv : WordEnvOK s tr d) :
    (wordActions s tr).countP (fun a => a.dcAt == d) ≤ 1 := by
  induction tr generalizing s with
  | nil => simp [wordActions]
  | cons e es ih =>
    rw [wordActions_cons, List.countP_append]
    cases e with
    | observe now amI obs opts =>
      have hout : (wordStep s (WordEvent.observe now amI obs opts)).2 = none := by
        simp only [wordStep]
        by_cases hg : (amI && awaitingWord obs) = true
        · rw [if_pos hg]
          cases hdc : obs.drawerChosenAt <;> simp [hdc]
        · rw [if_neg hg]
      rw [hout]
      simp only [Option.toList_none, List.countP_nil, Nat.zero_add]
      exact ih (wordStep s _).1 (wordInv_step s _ hinv) (WordEnvOK_tail s _ es d henv)
    | fire tid obs =>
      cases hf : s.pending.find? (fun t => t.tid == tid) with
      | none =>
        have hout : (wordStep s (WordEvent.fire tid obs)).2 = none := by
          simp [wordStep, hf]
        rw [hout]
        simp only [Option.toList_none, List.countP_nil, Nat.zero_add]
        exact ih (wordStep s _).1 (wordInv_step s _ hinv) (WordEnvOK_tail s _ es d henv)
      | some t =>
        by_cases hwc : obs.wordChosenAt.isNone = true
        · have hout : (wordStep s (WordEvent.fire tid obs)).2
              = some ⟨t.dcAt, t.fireAt, t.opts, firstWordChoice t.opts⟩ := by
            simp [wordStep, hf, hwc]
          by_cases hdeq : (t.dcAt == d) = true
          · have hpend : (wordStep s (WordEvent.fire tid obs)).1.pending = [] := by
              have hsing := singleton_of_length_le_one s.pending hinv.1 t
                (List.mem_of_find?_eq_some hf)
              have hpt := List.find?_some hf
              simp only [wordStep, hf]
              rw [hsing]
              simp [hpt]
            have hzero : (wordActions (wordStep s (WordEvent.fire tid obs)).1 es).countP
                (fun a => a.dcAt == d) = 0 := by
              apply List.countP_eq_zero.mpr
              intro a ha
              have hne := wordActions_avoid es (wordStep s (WordEvent.fire tid obs)).1 d
                (by rw [hpend]; intro t2 ht2; cases ht2)
                (WordEnvOK_after s _ es d henv _ hout hdeq) a ha
              simpa using hne
            rw [hout, hzero]
            simp [hdeq]
          · rw [hout]
            have hcz : (Option.toList
                (some (⟨t.dcAt, t.fireAt, t.opts, firstWordChoice t.opts⟩ : WordAction))).countP
                (fun a => a.dcAt == d) = 0 := by
              simp [hdeq]
            rw [hcz]
            simp only [Nat.zero_add]
            exact ih (wordStep s _).1 (wordInv_step s _ hinv) (WordEnvOK_tail s _ es d henv)
        · have hout : (wordStep s (WordEvent.fire tid obs)).2 = none := by
            simp [wordStep, hf, hwc]
          rw [hout]
          simp only [Option.toList_none, List.countP_nil, Nat.zero_add]
          exact ih (wordStep s _).1 (wordInv_step s _ hinv) (WordEnvOK_tail s _ es d henv)

/-- Claim C3: over any trace of effect runs and timeout firings whose
observations carry a local clock not behind `drawerChosenAt`, and whose
ledger reports the word as chosen once an auto-word action has fired for a
`drawerChosenAt` value `d`: (i) at most one auto-word timeout is ever
outstanding — each effect run cancels the previously scheduled one;
(ii) every fired action runs at least 15 seconds after its
`drawerChosenAt` and submits the first available word option; (iii) a
timeout firing after `wordChosenAt` is set performs no action; (iv) an
effect run in scheduling conditions followed by its timeout firing with
the word still unchosen performs the auto-word action; and (v) at most one
auto-word action ever fires for `d`. -/
theorem auto_word_once_spec (tr : List WordEvent) (d : Nat)
    (hclock : ∀ e ∈ tr, wordObsClockOK e = true)
    (henv : WordEnvOK WordClock.init tr d) :
    (∀ pre : List WordEvent, (wordRun WordClock.init pre).pending.length ≤ 1)
    ∧ (∀ a ∈ wordActions WordClock.init tr,
        a.dcAt + 15000 ≤ a.firedAt ∧ a.word = firstWordChoice a.opts)
    ∧ (∀ (s : WordClock) (tid : Nat) (obs : RoomObs), obs.wordChosenAt.isSome = true →
        (wordStep s (WordEvent.fire tid obs)).2 = none)
    ∧ (∀ (s : WordClock) (now : Nat) (obs obs2 : RoomObs) (opts : List String) (dc : Nat),
        (∀ t ∈ s.pending, s.timeoutRef = some t.tid) →
        awaitingWord obs = true → obs.drawerChosenAt = some dc →
        obs2.wordChosenAt = none →
        (wordStep (wordStep s (WordEvent.observe now true obs opts)).1
            (WordEvent.fire s.nextId obs2)).2
          = some ⟨dc, now + (15000 - (now - dc)), opts, firstWordChoice opts⟩)
    ∧ (wordActions WordClock.init tr).countP (fun a => a.dcAt == d) ≤ 1 := by
  refine ⟨?_, ?_, ?_, ?_, ?_⟩
  · intro pre
    exact (wordRun_inv pre WordClock.init wordInv_init).1
  · exact wordActions_bound tr WordClock.init (by intro t ht; cases ht) hclock
  · intro s tid obs hsome
    have hnone : obs.wordChosenAt.isNone = false := by
      cases h2 : obs.wordChosenAt with
      | none => rw [h2] at hsome; cases hsome
      | some v => rfl
    cases hf : s.pending.find? (fun t => t.tid == tid) with
    | none => simp [wordStep, hf]
    | some t => simp [wordStep, hf, hnone]
  · intro s now obs obs2 opts dc href hawait hdc hwc2
    have hcp := cancelWordTimeout_pending_nil s href
    have hg : (true && awaitingWord obs) = true := by rw [hawait]; rfl
    have hs1 : (wordStep s (WordEvent.observe now true obs opts)).1
        = ⟨s.nextId + 1, [⟨s.nextId, now + (15000 - (now - dc)), dc, opts⟩],
            some s.nextId⟩ := by
      simp only [wordStep, hg, if_pos, hdc]
      have hni : (cancelWordTimeout s).nextId = s.nextId := rfl
      rw [hcp, hni]
      rfl
    rw [hs1]
    have hwcn : obs2.wordChosenAt.isNone = true := by rw [hwc2]; rfl
    simp [wordStep, hwcn]
  · exact wordActions_once tr WordClock.init d wordInv_init henv

/-- Claim C3 witness: on the concrete trace `wordTr` with
drawerChosenAt = 1000, at most one action fires. -/
theorem auto_word_once_spec_witness :
    (wordActions WordClock.init wordTr).countP (fun a => a.dcAt == 1000) ≤ 1 :=
  (auto_word_once_spec wordTr 1000 (by decide)
    (by unfold WordEnvOK; decide)).2.2.2.2

/-! ### Claim C4: auto drawer advance timer -/

theorem drawerActions_cons (s : DrawerClock) (e : DrawerEvent) (l : List DrawerEvent) :
    drawerActions s (e :: l)
      = (drawerStep s e).2.toList ++ drawerActions (drawerStep s e).1 l := rfl

theorem cancelDrawerTimeout_pending_nil (s : DrawerClock)
    (h : ∀ t ∈ s.pending, s.timeoutRef = some t.tid) :
    (cancelDrawerTimeout s).pending = [] := by
  simp only [cancelDrawerTimeout]
  apply List.filter_eq_nil_iff.mpr
  intro t ht
  rw [h t ht]
  simp

theorem drawerInv_init : drawerInv DrawerClock.init := by
  constructor <;> simp [DrawerClock.init, drawerInv]

theorem drawerInv_step (s : DrawerClock) (e : DrawerEvent) (h : drawerInv s) :
    drawerInv (drawerStep s e).1 := by
  obtain ⟨h1, h2⟩ := h
  cases e with
  | observe now isHost obs =>
    have hcp := cancelDrawerTimeout_pending_nil s h2
    simp only [drawerStep]
    by_cases hh : (!isHost) = true
    · rw [if_pos hh]
      exact ⟨h1, h2⟩
    · rw [if_neg hh]
      cases hwc : obs.wordChosenAt with
      | some wc =>
        simp only []
        by_cases hph : (obs.phase == GamePhase.drawing) = true
        · rw [if_pos hph]
          by_cases hkey : (s.scheduleKey == some (obs.drawerIndex, wc)) = true
          · rw [if_pos hkey]
            exact ⟨h1, h2⟩
          · rw [if_neg hkey]
            refine ⟨?_, ?_⟩
            · simp [hcp]
            · intro t ht
              simp only [hcp, List.nil_append, List.mem_singleton] at ht
              rw [ht]
        · rw [if_neg hph]
          refine ⟨?_, ?_⟩
          · simp [hcp]
          · intro t ht
            simp only [hcp] at ht
            cases ht
      | none =>
        simp only []
        refine ⟨?_, ?_⟩
        · simp [hcp]
        · intro t ht
          simp only [hcp] at ht
          cases ht
  | fire tid obs =>
    cases hf : s.pending.find? (fun t => t.tid == tid) with
    | none =>
      simp only [drawerStep, hf]
      exact ⟨h1, h2⟩
    | some t =>
      simp only [drawerStep, hf]
      refine ⟨le_trans (List.length_filter_le _ _) h1, ?_⟩
      intro u hu
      exact h2 u (List.mem_of_mem_filter hu)

theorem drawerRun_inv (tr : List DrawerEvent) (s : DrawerClock) (h : drawerInv s) :
    drawerInv (drawerRun s tr) := by
  induction tr generalizing s with
  | nil => exact h
  | cons e es ih => exact ih (drawerStep s e).1 (drawerInv_step s e h)

theorem drawerTimerOK_step (s : DrawerClock) (e : DrawerEvent) (hs : drawerTimerOK s)
    (he : drawerObsClockOK e = true) : drawerTimerOK (drawerStep s e).1 := by
  cases e with
  | observe now isHost obs =>
    simp only [drawerStep]
    have hsub : drawerTimerOK (cancelDrawerTimeout s) := by
      intro t ht
      exact hs t (List.mem_of_mem_filter ht)
    by_cases hh : (!isHost) = true
    · rw [if_pos hh]
      exact hs
    · rw [if_neg hh]
      cases hwc : obs.wordChosenAt with
      | some wc =>
        simp only []
        by_cases hph : (obs.phase == GamePhase.drawing) = true
        · rw [if_pos hph]
          by_cases hkey : (s.scheduleKey == some (obs.drawerIndex, wc)) = true
          · rw [if_pos hkey]
            exact hs
          · rw [if_neg hkey]
            intro t ht
            rcases List.mem_append.mp ht with ht2 | ht2
            · exact hsub t ht2
            · rw [List.mem_singleton] at ht2
              rw [ht2]
              have hwcle : wc ≤ now := by
                simp only [drawerObsClockOK, hwc] at he
                exact of_decide_eq_true he
              simp only []
              omega
        · rw [if_neg hph]
          exact hsub
      | none => exact hsub
  | fire tid obs =>
    cases hf : s.pending.find? (fun t => t.tid == tid) with
    | none => simpa only [drawerStep, hf] using hs
    | some t =>
      simp only [drawerStep, hf]
      intro u hu
      exact hs u (List.mem_of_mem_filter hu)

theorem drawerObs_out_none (s : DrawerClock) (now : Nat) (isHost : Bool)
    (obs : RoomObs) : (drawerStep s (DrawerEvent.observe now isHost obs)).2 = none := by
  simp only [drawerStep]
  by_cases hh : (!isHost) = true
  · rw [if_pos hh]
  · rw [if_neg hh]
    cases hwc : obs.wordChosenAt with
    | some wc =>
      simp only []
      by_cases hph : (obs.phase == GamePhase.drawing) = true
      · rw [if_pos hph]
        by_cases hkey : (s.scheduleKey == some (obs.drawerIndex, wc)) = true
        · rw [if_pos hkey]
        · rw [if_neg hkey]
      · rw [if_neg hph]
    | none => rfl

theorem drawerActions_bound (tr : List DrawerEvent) (s : DrawerClock)
    (hs : drawerTimerOK s) (hcl : ∀ e ∈ tr, drawerObsClockOK e = true) :
    ∀ a ∈ drawerActions s tr, a.keyWc + a.sprMs ≤ a.firedAt := by
  induction tr generalizing s with
  | nil => intro a ha; cases ha
  | cons e es ih =>
    intro a ha
    rw [drawerActions_cons, List.mem_append] at ha
    rcases ha with ha | ha
    · cases e with
      | observe now isHost obs =>
        rw [drawerObs_out_none] at ha
        cases ha
      | fire tid obs =>
        cases hf : s.pending.find? (fun t => t.tid == tid) with
        | none => simp [drawerStep, hf] at ha
        | some t =>
          simp only [drawerStep, hf] at ha
          by_cases hg : ((obs.phase == GamePhase.drawing) && (obs.drawerIndex == t.keyIdx)
              && (obs.wordChosenAt == some t.keyWc)) = true
          · rw [if_pos hg] at ha
            rw [Option.toList_some, List.mem_singleton] at ha
            rw [ha]
            exact hs t (List.mem_of_find?_eq_some hf)
          · rw [if_neg hg] at ha
            cases ha
    · exact ih (drawerStep s e).1
        (drawerTimerOK_step s e hs (hcl e (List.mem_cons_self e es)))
        (fun e2 he2 => hcl e2 (List.mem_cons_of_mem e he2)) a ha

theorem drawerActions_avoid (tr : List DrawerEvent) (s : DrawerClock) (k : Nat × Nat)
    (hp : ∀ t ∈ s.pending, ¬(t.keyIdx = k.1 ∧ t.keyWc = k.2))
    (hobs : ∀ e ∈ tr, drawerObsBad k e = false) :
    ∀ a ∈ drawerActions s tr, ¬(a.keyIdx = k.1 ∧ a.keyWc = k.2) := by
  induction tr generalizing s with
  | nil => intro a ha; cases ha
  | cons e es ih =>
    have hp2 : ∀ t ∈ (drawerStep s e).1.pending, ¬(t.keyIdx = k.1 ∧ t.keyWc = k.2) := by
      cases e with
      | observe now isHost obs =>
        simp only [drawerStep]
        by_cases hh : (!isHost) = true
        · rw [if_pos hh]
          exact hp
        · rw [if_neg hh]
          have hHost : isHost = true := by
            cases isHost
            · exact absurd rfl hh
            · rfl
          cases hwc : obs.wordChosenAt with
          | some wc =>
            simp only []
            by_cases hph : (obs.phase == GamePhase.drawing) = true
            · rw [if_pos hph]
              by_cases hkey : (s.scheduleKey == some (obs.drawerIndex, wc)) = true
              · rw [if_pos hkey]
                exact hp
              · rw [if_neg hkey]
                intro t ht
                rcases List.mem_append.mp ht with ht2 | ht2
                · exact hp t (List.mem_of_mem_filter ht2)
                · rw [List.mem_singleton] at ht2
                  rw [ht2]
                  rintro ⟨habs1, habs2⟩
                  simp only at habs1 habs2
                  have hbadt : drawerObsBad k (DrawerEvent.observe now isHost obs)
                      = true := by
                    simp [drawerObsBad, hHost, hph, hwc, habs1, habs2]
                  have hbadf := hobs _ (List.mem_cons_self _ es)
                  rw [hbadt] at hbadf
                  cases hbadf
            · rw [if_neg hph]
              intro t ht
              exact hp t (List.mem_of_mem_filter ht)
          | none =>
            intro t ht
            exact hp t (List.mem_of_mem_filter ht)
      | fire tid obs =>
        cases hf : s.pending.find? (fun t => t.tid == tid) with
        | none => simpa only [drawerStep, hf] using hp
        | some t =>
          simp only [drawerStep, hf]
          intro u hu
          exact hp u (List.mem_of_mem_filter hu)
    intro a ha
    rw [drawerActions_cons, List.mem_append] at ha
    rcases ha with ha | ha
    · cases e with
      | observe now isHost obs =>
        rw [drawerObs_out_none] at ha
        cases ha
      | fire tid obs =>
        cases hf : s.pending.find? (fun t => t.tid == tid) with
        | none => simp [drawerStep, hf] at ha
        | some t =>
          simp only [drawerStep, hf] at ha
          by_cases hg : ((obs.phase == GamePhase.drawing) && (obs.drawerIndex == t.keyIdx)
              && (obs.wordChosenAt == some t.keyWc)) = true
          · rw [if_pos hg] at ha
            rw [Option.toList_some, List.mem_singleton] at ha
            rw [ha]
            exact hp t (List.mem_of_find?_eq_some hf)
          · rw [if_neg hg] at ha
            cases ha
    · exact ih (drawerStep s e).1 hp2
        (fun e2 he2 => hobs e2 (List.mem_cons_of_mem e he2)) a ha

theorem DrawerEnvOK_tail (s : DrawerClock) (e : DrawerEvent) (es : List DrawerEvent)
    (k : Nat × Nat) (h : DrawerEnvOK s (e :: es) k) :
    DrawerEnvOK (drawerStep s e).1 es k := by
  intro n hn hany
  have hlt : n + 1 < (e :: es).length := by simp only [List.length_cons]; omega
  have hany2 : (drawerActions s ((e :: es).take (n + 1))).any
      (fun a => (a.keyIdx == k.1) && (a.keyWc == k.2)) = true := by
    rw [List.take_succ_cons, drawerActions_cons, List.any_append, hany]
    simp
  exact h (n + 1) hlt hany2

theorem DrawerEnvOK_after (s : DrawerClock) (e : DrawerEvent) (es : List DrawerEvent)
    (k : Nat × Nat) (h : DrawerEnvOK s (e :: es) k) (a : DrawerAction)
    (hout : (drawerStep s e).2 = some a)
    (had : ((a.keyIdx == k.1) && (a.keyWc == k.2)) = true) :
    ∀ e2 ∈ es, drawerObsBad k e2 = false := by
  intro e2 he2
  obtain ⟨⟨n, hn⟩, rfl⟩ := List.mem_iff_get.mp he2
  have hlt : n + 1 < (e :: es).length := by simp only [List.length_cons]; omega
  have hany2 : (drawerActions s ((e :: es).take (n + 1))).any
      (fun x => (x.keyIdx == k.1) && (x.keyWc == k.2)) = true := by
    rw [List.take_succ_cons, drawerActions_cons, hout, List.any_append]
    simp only [Option.toList_some, List.any_cons, had, Bool.true_or, Bool.or_eq_true]
  have h2 := h (n + 1) hlt hany2
  have hDg : (e :: es).getD (n + 1) defaultDrawerEvent = es.getD n defaultDrawerEvent := rfl
  rw [hDg, list_getD_get es n hn] at h2
  exact h2

theorem drawerActions_once (tr : List DrawerEvent) (s : DrawerClock) (k : Nat × Nat)
    (hinv : drawerInv s) (henv : DrawerEnvOK s tr k) :
    (drawerActions s tr).countP (fun a => (a.keyIdx == k.1) && (a.keyWc == k.2)) ≤ 1 := by
  induction tr generalizing s with
  | nil => simp [drawerActions]
  | cons e es ih =>
    rw [drawerActions_cons, List.countP_append]
    cases e with
    | observe now isHost obs =>
      rw [drawerObs_out_none]
      simp only [Option.toList_none, List.countP_nil, Nat.zero_add]
      exact ih (drawerStep s _).1 (drawerInv_step s _ hinv) (DrawerEnvOK_tail s _ es k henv)
    | fire tid obs =>
      cases hf : s.pending.find? (fun t => t.tid == tid) with
      | none =>
        have hout : (drawerStep s (DrawerEvent.fire tid obs)).2 = none := by
          simp [drawerStep, hf]
        rw [hout]
        simp only [Option.toList_none, List.countP_nil, Nat.zero_add]
        exact ih (drawerStep s _).1 (drawerInv_step s _ hinv) (DrawerEnvOK_tail s _ es k henv)
      | some t =>
        by_cases hg : ((obs.phase == GamePhase.drawing) && (obs.drawerIndex == t.keyIdx)
            && (obs.wordChosenAt == some t.keyWc)) = true
        · have hout : (drawerStep s (DrawerEvent.fire tid obs)).2
              = some ⟨t.keyIdx, t.keyWc, t.sprMs, t.fireAt⟩ := by
            simp [drawerStep, hf, hg]
          by_cases hdeq : ((t.keyIdx == k.1) && (t.keyWc == k.2)) = true
          · have hpend : (drawerStep s (DrawerEvent.fire tid obs)).1.pending = [] := by
              have hsing := singleton_of_length_le_one s.pending hinv.1 t
                (List.mem_of_find?_eq_some hf)
              have hpt := List.find?_some hf
              simp only [drawerStep, hf]
              rw [hsing]
              simp [hpt]
            have hzero : (drawerActions (drawerStep s (DrawerEvent.fire tid obs)).1 es).countP
                (fun a => (a.keyIdx == k.1) && (a.keyWc == k.2)) = 0 := by
              apply List.countP_eq_zero.mpr
              intro a ha
              have hne := drawerActions_avoid es (drawerStep s (DrawerEvent.fire tid obs)).1 k
                (by rw [hpend]; intro t2 ht2; cases ht2)
                (DrawerEnvOK_after s _ es k henv _ hout hdeq) a ha
              intro habs
              rw [Bool.and_eq_true, beq_iff_eq, beq_iff_eq] at habs
              exact hne habs
            rw [hout, hzero]
            simp [hdeq]
          · rw [hout]
            have hcz : (Option.toList
                (some (⟨t.keyIdx, t.keyWc, t.sprMs, t.fireAt⟩ : DrawerAction))).countP
                (fun a => (a.keyIdx == k.1) && (a.keyWc == k.2)) = 0 := by
              simp only [Option.toList_some, List.countP_cons, List.countP_nil]
              simp [hdeq]
            rw [hcz]
            simp only [Nat.zero_add]
            exact ih (drawerStep s _).1 (drawerInv_step s _ hinv)
              (DrawerEnvOK_tail s _ es k henv)
        · have hout : (drawerStep s (DrawerEvent.fire tid obs)).2 = none := by
            simp only [drawerStep, hf]
            rw [if_neg hg]
          rw [hout]
          simp only [Option.toList_none, List.countP_nil, Nat.zero_add]
          exact ih (drawerStep s _).1 (drawerInv_step s _ hinv) (DrawerEnvOK_tail s _ es k henv)

/-- Claim C4: over any trace of host effect runs and timeout firings whose
observations carry a local clock not behind `wordChosenAt`, and whose
ledger never reports Drawing with a `(drawerIndex, wordChosenAt)` key again
once the auto-advance has fired for it: (i) at most one auto-advance
timeout is ever outstanding; (ii) every fired action runs at least the
scheduled round duration after its `wordChosenAt`; (iii) a redundant
observation carrying the key already recorded in the schedule-key ref
changes nothing and fires nothing; (iv) a timeout firing after the phase,
drawer index or word timestamp has changed performs no action; (v) a
scheduling observation followed by its timeout firing with the turn
unchanged performs the auto-advance action; and (vi) at most one
auto-advance action ever fires per key. -/
theorem auto_drawer_once_spec (tr : List DrawerEvent) (k : Nat × Nat)
    (hclock : ∀ e ∈ tr, drawerObsClockOK e = true)
    (henv : DrawerEnvOK DrawerClock.init tr k) :
    (∀ pre : List DrawerEvent, (drawerRun DrawerClock.init pre).pending.length ≤ 1)
    ∧ (∀ a ∈ drawerActions DrawerClock.init tr, a.keyWc + a.sprMs ≤ a.firedAt)
    ∧ (∀ (s : DrawerClock) (now : Nat) (isHost : Bool) (obs : RoomObs) (wc : Nat),
        obs.wordChosenAt = some wc → obs.phase = GamePhase.drawing →
        s.scheduleKey = some (obs.drawerIndex, wc) →
        drawerStep s (DrawerEvent.observe now isHost obs) = (s, none))
    ∧ (∀ (s : DrawerClock) (tid : Nat) (obs : RoomObs) (t : DTimer),
        s.pending.find? (fun u => u.tid == tid) = some t →
        ¬(obs.phase = GamePhase.drawing ∧ obs.drawerIndex = t.keyIdx
            ∧ obs.wordChosenAt = some t.keyWc) →
        (drawerStep s (DrawerEvent.fire tid obs)).2 = none)
    ∧ (∀ (s : DrawerClock) (now : Nat) (obs obs2 : RoomObs) (wc : Nat),
        (∀ t ∈ s.pending, s.timeoutRef = some t.tid) →
        obs.wordChosenAt = some wc → obs.phase = GamePhase.drawing →
        s.scheduleKey ≠ some (obs.drawerIndex, wc) →
        obs2.phase = GamePhase.drawing → obs2.drawerIndex = obs.drawerIndex →
        obs2.wordChosenAt = some wc →
        (drawerStep (drawerStep s (DrawerEvent.observe now true obs)).1
            (DrawerEvent.fire s.nextId obs2)).2
          = some ⟨obs.drawerIndex, wc, obs.secondsPerRound * 1000,
              now + (obs.secondsPerRound * 1000 - (now - wc))⟩)
    ∧ (drawerActions DrawerClock.init tr).countP
        (fun a => (a.keyIdx == k.1) && (a.keyWc == k.2)) ≤ 1 := by
  refine ⟨?_, ?_, ?_, ?_, ?_, ?_⟩
  · intro pre
    exact (drawerRun_inv pre DrawerClock.init drawerInv_init).1
  · exact drawerActions_bound tr DrawerClock.init (by intro t ht; cases ht) hclock
  · intro s now isHost obs wc hwc hph hkey
    have hphb : (obs.phase == GamePhase.drawing) = true := by rw [hph]; rfl
    have hkeyb : (s.scheduleKey == some (obs.drawerIndex, wc)) = true := by
      rw [hkey]; simp
    cases isHost with
    | false => simp [drawerStep]
    | true => simp [drawerStep, hwc, hphb, hkeyb]
  · intro s tid obs t hf hng
    have hg : ((obs.phase == GamePhase.drawing) && (obs.drawerIndex == t.keyIdx)
        && (obs.wordChosenAt == some t.keyWc)) = false := by
      cases hg2 : ((obs.phase == GamePhase.drawing) && (obs.drawerIndex == t.keyIdx)
          && (obs.wordChosenAt == some t.keyWc)) with
      | false => rfl
      | true =>
        exfalso
        rw [Bool.and_eq_true, Bool.and_eq_true, beq_iff_eq, beq_iff_eq, beq_iff_eq] at hg2
        exact hng ⟨hg2.1.1, hg2.1.2, hg2.2⟩
    simp only [drawerStep, hf]
    rw [if_neg (by rw [hg]; intro habs; cases habs)]
  · intro s now obs obs2 wc href hwc hph hneq hph2 hidx2 hwc2
    have hcp := cancelDrawerTimeout_pending_nil s href
    have hphb : (obs.phase == GamePhase.drawing) = true := by rw [hph]; rfl
    have hkeyb : (s.scheduleKey == some (obs.drawerIndex, wc)) = false := by
      cases hkey2 : (s.scheduleKey == some (obs.drawerIndex, wc)) with
      | false => rfl
      | true => exact absurd (eq_of_beq hkey2) hneq
    have hs1 : (drawerStep s (DrawerEvent.observe now true obs)).1
        = ⟨s.nextId + 1,
            [⟨s.nextId, now + (obs.secondsPerRound * 1000 - (now - wc)),
              obs.drawerIndex, wc, obs.secondsPerRound * 1000⟩],
            some s.nextId, some (obs.drawerIndex, wc)⟩ := by
      simp only [drawerStep, hwc, hphb, hkeyb]
      rw [if_pos trivial]
      rw [if_neg (by intro habs; exact Bool.false_ne_true habs)]
      rw [hcp]
      rfl
    rw [hs1]
    have hgb : ((obs2.phase == GamePhase.drawing) && (obs2.drawerIndex == obs.drawerIndex)
        && (obs2.wordChosenAt == some wc)) = true := by
      rw [hph2, hidx2, hwc2]
      simp
    simp [drawerStep, hgb]
  · exact drawerActions_once tr DrawerClock.init k drawerInv_init henv

/-- Claim C4 witness: on the concrete trace `drawerTr` with key (1, 2000),
at most one auto-advance action fires. -/
theorem auto_drawer_once_spec_witness :
    (drawerActions DrawerClock.init drawerTr).countP
      (fun a => (a.keyIdx == 1) && (a.keyWc == 2000)) ≤ 1 :=
  (auto_drawer_once_spec drawerTr (1, 2000) (by decide)
    (by unfold DrawerEnvOK; decide)).2.2.2.2.2

end Skribble
